import Mathlib

/-!
# A verification model of the aleph.js incremental module-compilation core

This file is a shallow embedding, in Lean 4, of the module registry,
compile/initialize protocol, content-hash computation, dependency-hash
cascade propagator and artifact-cache interaction implemented in
`src/server/aleph.ts` (class `Aleph`).

Modelling conventions:

* The runtime is single-threaded and cooperative; all the `async` code of the
  source is modelled as sequential state passing over an explicit
  `AlephState`.  Un-awaited calls (`#applyCompilationSideEffect`,
  `#cacheModule` inside the cascade) are executed in program order.
* External collaborators (the SWC transform engine, the CSS loader, hashing
  digests, the network/file fetcher, plugin hooks) are parameters collected
  in a `Ctx` record of pure functions; the orchestration code around them is
  translated from the source.
* Machine buffers (`Uint8Array`) are `List Nat`; `encoder.encode` on the
  ASCII strings relevant here is char-code mapping.
* Recursive procedures whose termination is guarded by mutable tracing sets
  in the source (`#transpileModule`, `#applyCompilationSideEffect`,
  `lookupDeps`) are embedded with an explicit fuel argument plus an `ok`
  flag recording that fuel was never exhausted.
* Helper functions that live in repository files not included under `src/`
  (`server/helper.ts`, `shared/util.ts`, `framework/core/module.ts`) are
  modelled from the spec and marked as such in their doc comments.
-/

namespace Aleph

/-- `String.prototype.startsWith`, on the character lists (the built-in
`String.startsWith` does not reduce in the kernel). -/
def strStartsWith (s p : String) : Bool :=
  p.data.isPrefixOf s.data

/-- `String.prototype.endsWith`, on the character lists. -/
def strEndsWith (s p : String) : Bool :=
  p.data.isSuffixOf s.data

/-- Byte encoding of a string: char-code list.  The source uses
`TextEncoder.encode` (UTF-8); for the ASCII hash markers and code handled by
the claims the two agree code-unit-by-byte. -/
def encodeStr (s : String) : List Nat :=
  s.data.map Char.toNat

/-- `Uint8Array.prototype.slice(a, b)` on byte lists (non-negative indices,
clamping at the length, empty when `b ≤ a`). -/
def sliceList (l : List Nat) (a b : Nat) : List Nat :=
  (l.drop a).take (b - a)

/-- `copy(src, dst, off)` from `std/bytes`: writes `src` into `dst` starting
at `off`, truncating whatever would run past the end of `dst`; the length of
`dst` is preserved. -/
def copyBytes (src dst : List Nat) (off : Nat) : List Nat :=
  dst.take off ++ src.take (dst.length - off) ++ dst.drop (off + src.length)

/-- Check whether `needle` occurs in `hay` starting at position 0. -/
def startsWithSub (hay needle : List Nat) : Bool :=
  needle.isPrefixOf hay

/-- `indexOf(source, pattern)` from `std/bytes`: position of the first
occurrence of `needle` in `hay`, `none` when absent. -/
def indexOfSub (hay needle : List Nat) : Option Nat :=
  go hay 0
where
  go : List Nat → Nat → Option Nat
    | [], i => if needle = [] ∧ i = 0 then some 0 else none
    | l@(_ :: rest), i =>
      if startsWithSub l needle then some i else go rest (i + 1)

/-- Lexicographic comparison of char lists by code unit, the order JavaScript
`Array.prototype.sort` applies to strings. -/
def lexLe : List Char → List Char → Bool
  | [], _ => true
  | _ :: _, [] => false
  | a :: as, b :: bs =>
    if a.toNat < b.toNat then true
    else if b.toNat < a.toNat then false
    else lexLe as bs

/-- JavaScript string comparison used by `Object.keys(..).sort()`. -/
def strLe (a b : String) : Bool :=
  lexLe a.data b.data

/-- Stable insertion of an element into a sorted list. -/
def sortInsert (le : α → α → Bool) (x : α) : List α → List α
  | [] => [x]
  | y :: ys => if le x y then x :: y :: ys else y :: sortInsert le x ys

/-- Sorting (`Array.prototype.sort` with the default string comparator is
modelled by any stable comparison sort; the result is the `le`-sorted
permutation). -/
def sortBy (le : α → α → Bool) : List α → List α
  | [] => []
  | x :: xs => sortInsert le x (sortBy le xs)

/-- `util.isFilledString` from `shared/util.ts`.
Modelled from the spec: a value is a filled string when it is a string and
non-empty (`shared/util.ts` is not included under `src/`). -/
def isFilledString (s : String) : Bool :=
  s ≠ ""

/-- `util.isLikelyHttpURL` from `shared/util.ts`.
Modelled from the spec: remote URL-like identifiers are the `http(s)://`
ones (`shared/util.ts` is not included under `src/`). -/
def isLikelyHttpURL (s : String) : Bool :=
  strStartsWith s "https://" || strStartsWith s "http://"

/-- `isLocalhostUrl` from `server/helper.ts`.
Modelled from the spec: a remote specifier pointing at the local host is not
treated as remote (`server/helper.ts` is not included under `src/`). -/
def isLocalhostUrl (s : String) : Bool :=
  strStartsWith s "http://localhost" || strStartsWith s "https://localhost" ||
    strStartsWith s "http://127.0.0.1" || strStartsWith s "https://127.0.0.1"

/-- The built-in module extensions of `framework/core/module.ts`.
Modelled from the spec (the file is not included under `src/`). -/
def builtinModuleExts : List String :=
  ["ts", "tsx", "mjs", "js", "jsx"]

/-- `trimBuiltinModuleExts` from `framework/core/module.ts`.
Modelled from the spec: strips a known source extension from a specifier
(the file is not included under `src/`). -/
def trimBuiltinModuleExts (s : String) : String :=
  match builtinModuleExts.find? (fun ext => strEndsWith s ("." ++ ext)) with
  | some ext => s.dropRight (ext.length + 1)
  | none => s

/-- `toLocalPath` from `server/helper.ts`.
Modelled from the spec: maps a specifier to a local path-like identifier,
keeping local specifiers as they are and prefixing remote ones (the file is
not included under `src/`; the exact remote mangling is irrelevant to the
claims, only injectivity on the specifiers in play matters). -/
def toLocalPath (s : String) : String :=
  if isLikelyHttpURL s then "/-/" ++ s else s

/-- The derived compiled-output location of a specifier
(`trimBuiltinModuleExts(toLocalPath(specifier)) + '.js'`, the build-dir
prefix elided: the on-disk artifact store is keyed by this path). -/
def jsFileOf (specifier : String) : String :=
  trimBuiltinModuleExts (toLocalPath specifier) ++ ".js"

/-- Splitting a character list at a separator character. -/
def splitChar (c : Char) : List Char → List (List Char)
  | [] => [[]]
  | x :: xs =>
    let r := splitChar c xs
    if x = c then [] :: r
    else
      match r with
      | h :: t => (x :: h) :: t
      | [] => [[x]]

/-- `basename` of a path (`std/path`). -/
def basename (s : String) : String :=
  match (splitChar '/' s.data).getLast? with
  | some b => ⟨b⟩
  | none => s

/-- Source kinds recognised by the compiler (`SourceType` of
`compiler/mod.ts`). -/
inductive SourceType where
  | js
  | jsx
  | ts
  | tsx
  | css
  | unknown
deriving DecidableEq, Repr

/-- `getSourceType` from `server/helper.ts`.
Modelled from the spec: maps a specifier extension (or, when given, a
content type) to a source kind; anything unrecognised yields
`SourceType.unknown` (`server/helper.ts` is not included under `src/`). -/
def getSourceType (specifier : String) (contentType : Option String := none) : SourceType :=
  if strEndsWith specifier ".tsx" then .tsx
  else if strEndsWith specifier ".ts" then .ts
  else if strEndsWith specifier ".jsx" then .jsx
  else if strEndsWith specifier ".js" || strEndsWith specifier ".mjs" then .js
  else if strEndsWith specifier ".css" then .css
  else
    match contentType with
    | some ct =>
      if strStartsWith ct "application/javascript" || strStartsWith ct "text/javascript" then .js
      else if strStartsWith ct "text/css" then .css
      else .unknown
    | none => .unknown

/-- A dependency record of a module (`DependencyDescriptor` of
`types.d.ts`): the dependency's specifier, the dynamic-import flag, the byte
offset of the embedded aggregate-hash marker in the importer's compiled
output, and the virtual-module flag added by plugin `extraDeps`. -/
structure DependencyDescriptor where
  specifier : String
  isDynamic : Bool := false
  hashLoc : Option Nat := none
  virtual : Bool := false
deriving DecidableEq, Repr

/-- A module source (`ModuleSource` of `compiler/mod.ts`). -/
structure ModuleSource where
  code : String
  type : SourceType
  map : Option String := none
deriving DecidableEq, Repr

/-- The central `Module` entity (`types.d.ts`).  `jsBuffer` is the lazily
held compiled-output buffer (`none` = evicted/not yet loaded), `csrCode`
records whether the derived client-side-render code cache is present, and
`httpExternal` is `Option Bool` to mirror the `boolean | undefined` field of
the source (`none` = the property is absent).  The `ready` promise is
implicit: in the sequential model every returned module's current attempt
has completed. -/
structure Module where
  specifier : String
  deps : List DependencyDescriptor := []
  sourceHash : String := ""
  jsFile : String := ""
  external : Bool := false
  httpExternal : Option Bool := none
  isStyle : Bool := false
  jsBuffer : Option (List Nat) := none
  csrCode : Bool := false
  source : Option ModuleSource := none
deriving DecidableEq, Repr

/-- JavaScript truthiness of a `boolean | undefined` field. -/
def isTruthy : Option Bool → Bool
  | some true => true
  | _ => false

/-- The parsed JSON shape of a metadata sidecar as `#initModule` inspects
it: the three checked fields plus the mergeable payload.  A field is `none`
when the key is absent from the JSON object. -/
structure MetaJson where
  specifier : Option String := none
  sourceHash : Option String := none
  deps : Option (List DependencyDescriptor) := none
  httpExternal : Option Bool := none
  isStyle : Option Bool := none
deriving DecidableEq, Repr

/-- The on-disk artifact cache, keyed by the derived output path: compiled
bytes and metadata sidecars.  A `none` metadata value models a sidecar file
that exists but does not parse as JSON. -/
structure Disk where
  jsFiles : List (String × List Nat) := []
  metas : List (String × Option MetaJson) := []
deriving DecidableEq, Repr

def Disk.getJs (d : Disk) (key : String) : Option (List Nat) :=
  (d.jsFiles.find? (fun e => e.1 = key)).map (·.2)

def Disk.getMeta (d : Disk) (key : String) : Option (Option MetaJson) :=
  (d.metas.find? (fun e => e.1 = key)).map (·.2)

def putAssoc (l : List (String × α)) (key : String) (v : α) : List (String × α) :=
  if l.any (fun e => e.1 = key) then
    l.map (fun e => if e.1 = key then (key, v) else e)
  else
    l ++ [(key, v)]

def Disk.putJs (d : Disk) (key : String) (v : List Nat) : Disk :=
  { d with jsFiles := putAssoc d.jsFiles key v }

def Disk.putMeta (d : Disk) (key : String) (v : Option MetaJson) : Disk :=
  { d with metas := putAssoc d.metas key v }

def Disk.removeMeta (d : Disk) (key : String) : Disk :=
  { d with metas := d.metas.filter (fun e => e.1 ≠ key) }

/-- Result of a resolver hook (`ResolveResult` of `types.d.ts`); an empty
`specifier` models a falsy (absent) rewrite. -/
structure ResolveResult where
  specifier : String := ""
  external : Bool := false
  data : String := ""
  asPage : Bool := false
  acceptHMR : Bool := false

/-- A registered `onResolve` listener: the test predicate models
`RegExp.test` and `resolve` the callback. -/
structure ResolveListener where
  pluginId : Nat := 0
  test : String → Bool
  resolve : String → ResolveResult

/-- Output of an `onLoad` listener (`LoadOutput` of `types.d.ts`): code, an
optional type tag and an optional source map. -/
structure LoadOutput where
  code : String
  type : Option String := none
  map : Option String := none

/-- A registered `onLoad` listener; `load` may throw, modelled by
`Except`. -/
structure LoadListener where
  pluginId : Nat := 0
  test : String → Bool
  load : String → String → Except String LoadOutput

/-- The test of an `onTransform` listener: a pattern or one of the special
tags. -/
inductive TransformTest where
  | pattern (test : String → Bool)
  | hmr
  | main

def TransformTest.matches : TransformTest → String → Bool
  | .pattern p, s => p s
  | _, _ => false

/-- Result of an `onTransform` listener (`TransformOutput`). -/
structure TransformOutput where
  code : Option String := none
  map : Option String := none
  extraDeps : List DependencyDescriptor := []

/-- A registered `onTransform` listener; the callback receives the
specifier, the current code and the current map. -/
structure TransformListener where
  pluginId : Nat := 0
  test : TransformTest
  transform : String → String → Option String → TransformOutput

/-- A configured plugin entry (`config.plugins[i]`): its name and optional
checksum thunk. -/
structure Plugin where
  name : String := ""
  checksum : Option String := none

/-- A dependency as reported by the transform collaborator
(`DependencyDescriptor` of `compiler/mod.ts`): original specifier, the
rewritten import literal embedded in the output, and the dynamic flag. -/
structure TransformDep where
  specifier : String
  resolved : String := ""
  isDynamic : Bool := false

/-- The result of the external transform collaborator (`TransformResult` of
`compiler/mod.ts`), restricted to the fields the orchestrator consumes. -/
structure TransformRet where
  code : String
  deps : List TransformDep := []
  starExports : List String := []
  map : Option String := none

/-- The collaborators and configuration of an `Aleph` instance: plugin
hooks, import map, config fingerprints, the hash digests and the external
transform/fetch engines.  All are pure functions; the orchestration code of
`src/server/aleph.ts` is defined over them. -/
structure Ctx where
  resolvers : List ResolveListener := []
  loadListeners : List LoadListener := []
  transformListeners : List TransformListener := []
  plugins : List Plugin := []
  importMap : List (String × String) := []
  cssConfigStr : String := ""
  isDev : Bool := false
  reload : Bool := false
  ssr : Bool := true
  sha1 : String → String := id
  md5 : String → String := id
  fetchModule : String → Except String (List Nat × Option String) :=
    fun s => .error ("No such file: " ++ s)
  transformF : String → ModuleSource → TransformRet := fun _ src => { code := src.code }
  fastTransformF : String → ModuleSource → TransformRet := fun _ src => { code := src.code }
  cssLoaderF : String → String → String × Option String := fun _ code => (code, none)
  replaceStarExportsF : String → String → String := fun _ code => code

/-- The mutable state of an `Aleph` instance: the module registry (in
insertion order, the iteration order of `Map.values()`), the `/app` module
pointer, the artifact cache, the per-session reload markers and the
observable event logs.  `transformLog` records every invocation of the
external transform collaborator, `loadLog` every source load. -/
structure AlephState where
  modules : List Module := []
  appModule : Option String := none
  disk : Disk := {}
  initSession : List String := []
  transformLog : List String := []
  loadLog : List String := []
  errorLog : List String := []
  warnLog : List String := []
  pageRouting : List String := []
  apiRouting : List String := []
deriving DecidableEq, Repr

/-- Registry lookup (`#modules.get`). -/
def getModuleReg (ms : List Module) (specifier : String) : Option Module :=
  ms.find? (fun m => m.specifier = specifier)

/-- Registry write (`#modules.set`): replaces in place, appends when new
(the insertion-order semantics of `Map.set`). -/
def setModuleReg (ms : List Module) (m : Module) : List Module :=
  if ms.any (fun e => e.specifier = m.specifier) then
    ms.map (fun e => if e.specifier = m.specifier then m else e)
  else
    ms ++ [m]

/-- Registry delete (`#modules.delete`). -/
def removeModuleReg (ms : List Module) (specifier : String) : List Module :=
  ms.filter (fun m => m.specifier ≠ specifier)

/-- `getModule`: the literal specifier `app` aliases the `/app` module;
everything else is a registry lookup.  The alias is modelled by specifier
indirection through `appModule`. -/
def getModule (st : AlephState) (specifier : String) : Option Module :=
  if specifier = "app" then
    st.appModule.bind (getModuleReg st.modules)
  else
    getModuleReg st.modules specifier

/-- The recursive body of `lookupDeps`: depth-first traversal of the
dependency closure, collecting every visited dependency record in callback
order; the tracing set makes each specifier contribute at most once.  The
fuel dominates the recursion depth, which the tracing set bounds by the
registry size. -/
def lookupDepsList (st : AlephState) : Nat → String → List String → List DependencyDescriptor × List String
  | 0, _, tracing => ([], tracing)
  | fuel + 1, specifier, tracing =>
    match getModule st specifier with
    | none => ([], tracing)
    | some mod =>
      if specifier ∈ tracing then ([], tracing)
      else
        let tracing := specifier :: tracing
        mod.deps.foldl
          (fun (acc : List DependencyDescriptor × List String) dep =>
            let (out, tr) := lookupDepsList st fuel dep.specifier acc.2
            (acc.1 ++ out, tr))
          (mod.deps, tracing)

/-- `lookupDeps(specifier, callback)` with the collecting callback used by
`computeModuleHash`: the list of dependency records visited.  The fuel
`modules.length + 2` exceeds the maximal recursion depth (each level
consumes a fresh traced specifier backed by a registry entry, plus one for
the `app` alias). -/
def lookupDeps (st : AlephState) (specifier : String) : List DependencyDescriptor :=
  (lookupDepsList st (st.modules.length + 2) specifier []).1

/-- `computeModuleHash(module)`: an md5 digest seeded with the module's own
`sourceHash` and updated with the `sourceHash` of every registered module
reachable through `lookupDeps`. -/
def computeModuleHash (ctx : Ctx) (st : AlephState) (m : Module) : String :=
  ctx.md5 (String.join
    (m.sourceHash ::
      (lookupDeps st m.specifier).filterMap
        (fun dep => (getModule st dep.specifier).map (fun dm => dm.sourceHash))))

/-- `getModuleJS(module)` without HMR injection: returns the in-memory
buffer, lazily loading it from the artifact cache; the loaded buffer is
cached on the module. -/
def getModuleJS (disk : Disk) (m : Module) : Option (List Nat) × Module :=
  match m.jsBuffer with
  | some buf => (some buf, m)
  | none =>
    match disk.getJs m.jsFile with
    | some buf => (some buf, { m with jsBuffer := some buf })
    | none => (none, m)

/-- `#replaceDepHash(module, hashLoc, hash)`: writes the first six
characters of `hash` at byte offset `hashLoc` of the module's compiled
buffer; when the bytes actually change, the cached `csrCode` is dropped and
`true` is returned.  The buffer length never changes. -/
def replaceDepHash (disk : Disk) (m : Module) (hashLoc : Nat) (hash : String) :
    Module × Bool :=
  let hashData := encodeStr (hash.take 6)
  match getModuleJS disk m with
  | (none, m') => (m', false)
  | (some jsBuffer, m') =>
    if hashData ≠ sliceList jsBuffer hashLoc (hashLoc + 6) then
      ({ m' with jsBuffer := some (copyBytes hashData jsBuffer hashLoc), csrCode := false },
        true)
    else
      (m', false)

/-- `#cacheModule(module)`: when the module holds compiled bytes, persists
them together with the metadata sidecar (specifier, deps, sourceHash and the
optional flags; the in-memory-only fields are excluded).  The stale
`.bundling.js` removal is not modelled. -/
def cacheModule (st : AlephState) (m : Module) : AlephState :=
  match m.jsBuffer with
  | none => st
  | some buf =>
    { st with
      disk :=
        (st.disk.putJs m.jsFile buf).putMeta m.jsFile
          (some
            { specifier := some m.specifier
              sourceHash := some m.sourceHash
              deps := some m.deps
              httpExternal := m.httpExternal
              isStyle := if m.isStyle then some true else none }) }

/-- The result of a cascade-propagation call: the new state, the specifiers
handed to the `onPatched` callback (in invocation order), the specifiers
that entered the guarded body as the "changed module" (in entry order), and
whether the fuel sufficed. -/
structure CascadeOut where
  st : AlephState
  patched : List String := []
  processed : List String := []
  ok : Bool := true
deriving DecidableEq, Repr

/-- The inner dependency loop of `#applyCompilationSideEffect` for one
scanned module: walks the module's captured `deps` list, and for every
record naming the changed module with a recorded `hashLoc`, computes the
changed module's aggregate hash (memoized across the whole call) and patches
the scanned module's buffer in place.  Returns the updated state, the memo
and the `fsync` flag. -/
def cascadeDeps (ctx : Ctx) (spec : String) (byMod : Module) :
    List DependencyDescriptor → AlephState → Option String → Bool →
      AlephState × Option String × Bool
  | [], st, memo, fsync => (st, memo, fsync)
  | dep :: rest, st, memo, fsync =>
    match dep.hashLoc with
    | some hashLoc =>
      if dep.specifier = byMod.specifier then
        let hash :=
          match memo with
          | some h => h
          | none => computeModuleHash ctx st byMod
        match getModuleReg st.modules spec with
        | some mod =>
          let (mod', changed) := replaceDepHash st.disk mod hashLoc hash
          let st' := { st with modules := setModuleReg st.modules mod' }
          cascadeDeps ctx spec byMod rest st' (some hash) (fsync || changed)
        | none => cascadeDeps ctx spec byMod rest st (some hash) fsync
      else
        cascadeDeps ctx spec byMod rest st memo fsync
    | none => cascadeDeps ctx spec byMod rest st memo fsync

/-- The registry scan of `#applyCompilationSideEffect`, parameterized by
the recursive propagation call `rec` (the propagation at one fuel level
less): iterates over the snapshot of registered specifiers (patches never
add or remove registry keys), patching each module's dependency sites on
the changed module; on a patched module it invokes the callback, recurses
with a fresh tracing set and persists the patched module. -/
def cascadeScan (ctx : Ctx) (rec : AlephState → Module → List String → CascadeOut) :
    List String → AlephState → Module → Option String → List String →
      List String → Bool → CascadeOut
  | [], st, _, _, patched, processed, ok => ⟨st, patched, processed, ok⟩
  | spec :: rest, st, byMod, memo, patched, processed, ok =>
    match getModuleReg st.modules spec with
    | none => cascadeScan ctx rec rest st byMod memo patched processed ok
    | some mod =>
      if mod.deps = [] then
        cascadeScan ctx rec rest st byMod memo patched processed ok
      else
        let (st₁, memo₁, fsync) := cascadeDeps ctx spec byMod mod.deps st memo false
        if fsync then
          match getModuleReg st₁.modules spec with
          | some mod₁ =>
            let rec₁ := rec st₁ mod₁ []
            let st₂ :=
              match getModuleReg rec₁.st.modules spec with
              | some mod₂ => cacheModule rec₁.st mod₂
              | none => rec₁.st
            cascadeScan ctx rec rest st₂ byMod memo₁
              (patched ++ [spec] ++ rec₁.patched) (processed ++ rec₁.processed)
              (ok && rec₁.ok)
          | none =>
            cascadeScan ctx rec rest st₁ byMod memo₁ patched processed ok
        else
          cascadeScan ctx rec rest st₁ byMod memo₁ patched processed ok

/-- The body of `#applyCompilationSideEffect(by, callback, __tracing)` at
one fuel level, parameterized by the next-level recursive call: scans every
registered module for dependency records embedding the changed module's
aggregate hash, patches them in place, and recurses on every patched module
as a new changed module.  As in the source, the recursive invocation is
made with a *fresh* tracing set (the third argument is not forwarded at the
call site), so the guard only stops an invocation whose specifier is in the
set it was given. -/
def applyCompilationSideEffectBody (ctx : Ctx)
    (rec : AlephState → Module → List String → CascadeOut)
    (st : AlephState) (byMod : Module) (tracing : List String) : CascadeOut :=
  if byMod.specifier ∈ tracing then ⟨st, [], [], true⟩
  else
    cascadeScan ctx rec (st.modules.map (fun m => m.specifier)) st byMod none
      [] [byMod.specifier] true

/-- `#applyCompilationSideEffect` with explicit fuel bounding the recursion
depth (`ok = false` records exhaustion); structural recursion on the fuel
so that runs on concrete states compute. -/
def applyCompilationSideEffect (ctx : Ctx) (fuel : Nat) :
    AlephState → Module → List String → CascadeOut :=
  Nat.rec (motive := fun _ => AlephState → Module → List String → CascadeOut)
    (fun st _ _ => ⟨st, [], [], false⟩)
    (fun _ rec => applyCompilationSideEffectBody ctx rec)
    fuel

/-- Options of `compile`/`#initModule` (`CompileOptions`). -/
structure CompileOptions where
  source : Option ModuleSource := none
  forceRefresh : Bool := false
  ignoreDeps : Bool := false
  httpExternal : Option Bool := none
  virtual : Bool := false

/-- Decoding of fetched bytes (`TextDecoder`), inverse of `encodeStr` on the
code points in play. -/
def decodeStr (l : List Nat) : String :=
  ⟨l.map Char.ofNat⟩

/-- The value computed by `resolveModuleSource(specifier, data)`: the first
matching `onLoad` listener supplies the source (with its declared type tag,
defaulting to `js`; an unrecognised tag leaves the type unknown), otherwise
the source is fetched directly and typed from the specifier/content type. -/
def resolveModuleSourceE (ctx : Ctx) (specifier : String) (data : String) :
    Except String ModuleSource :=
  match ctx.loadListeners.find? (fun l => l.test specifier) with
  | some loader =>
    match loader.load specifier data with
    | .error e => .error e
    | .ok out =>
      let sourceType :=
        match out.type.getD "js" with
        | "js" => SourceType.js
        | "jsx" => SourceType.jsx
        | "ts" => SourceType.ts
        | "tsx" => SourceType.tsx
        | "css" => SourceType.css
        | _ => SourceType.unknown
      let map :=
        match out.map with
        | some m => if m ≠ "" then some m else none
        | none => none
      .ok { code := out.code, type := sourceType, map }
  | none =>
    match ctx.fetchModule specifier with
    | .error e => .error e
    | .ok (content, contentType) =>
      let sourceType := getSourceType specifier contentType
      let code := if sourceType ≠ SourceType.unknown then decodeStr content else ""
      .ok { code, type := sourceType }

/-- `resolveModuleSource(specifier, data)` as a state transformer: the only
state effect of a source load is the `loadLog` record. -/
def resolveModuleSource (ctx : Ctx) (st : AlephState) (specifier : String)
    (data : String) : AlephState × Except String ModuleSource :=
  ({ st with loadLog := st.loadLog ++ [specifier] },
    resolveModuleSourceE ctx specifier data)

/-- The import-map hasher input:
`Object.keys(imports).sort().map(key => key + ':' + imports[key]).join('\n')`. -/
def importMapString (importMap : List (String × String)) : String :=
  String.intercalate "\n"
    ((sortBy strLe (importMap.map (fun e => e.1))).map
      (fun key =>
        key ++ ":" ++ (((importMap.find? (fun e => e.1 = key)).map (fun e => e.2)).getD "")))

/-- The `plugins` Set of `#initModule`: the first matching load listener's
plugin id, then the plugin id of every regex transform listener matching the
specifier, deduplicated in insertion order (the iteration order of a
JavaScript `Set`). -/
def matchedPluginIds (ctx : Ctx) (specifier : String) : List Nat :=
  let base :=
    match ctx.loadListeners.find? (fun l => l.test specifier) with
    | some loader => [loader.pluginId]
    | none => []
  ctx.transformListeners.foldl
    (fun acc t =>
      match t.test with
      | .pattern p =>
        if p specifier && !(acc.contains t.pluginId) then acc ++ [t.pluginId] else acc
      | _ => acc)
    base

/-- The `(name, checksum)` hasher updates contributed by the matched
plugins, in the Set's iteration order; plugins without a checksum contribute
nothing. -/
def pluginChecksumUpdates (ctx : Ctx) (specifier : String) : List String :=
  (matchedPluginIds ctx specifier).foldl
    (fun acc idx =>
      match ctx.plugins.get? idx with
      | some p =>
        match p.checksum with
        | some c => acc ++ [p.name, c]
        | none => acc
      | none => acc)
    []

/-- The exact sequence of strings `#initModule` feeds the sha1 hasher when
computing a module's `sourceHash`: the raw code, the sorted import-map
entries, the matched plugins' names/checksums, and (for CSS sources) the CSS
configuration fingerprint. -/
def sourceHashUpdates (ctx : Ctx) (specifier : String) (src : ModuleSource) :
    List String :=
  [src.code, importMapString ctx.importMap] ++ pluginChecksumUpdates ctx specifier ++
    (if src.type = SourceType.css then [ctx.cssConfigStr] else [])

/-- The `sourceHash` computation of `#initModule`. -/
def sourceHashOf (ctx : Ctx) (specifier : String) (src : ModuleSource) : String :=
  ctx.sha1 (String.join (sourceHashUpdates ctx specifier src))

/-- The result of `#initModule`: the state, the module, and the loaded
source (`none` signals "nothing to transpile"). -/
structure InitOut where
  st : AlephState
  module : Module
  source : Option ModuleSource := none
deriving Repr

/-- The resolver chain of `#initModule`: the first matching `onResolve`
listener may rewrite the specifier (a falsy rewrite is ignored) and mark it
external. -/
def runResolvers (ctx : Ctx) (specifier : String) : String × Bool × String :=
  match ctx.resolvers.find? (fun r => r.test specifier) with
  | some r =>
    let ret := r.resolve specifier
    (if ret.specifier ≠ "" then ret.specifier else specifier, ret.external, ret.data)
  | none => (specifier, false, "")

/-- The shape check `#initModule` applies to a parsed metadata sidecar:
specifier match, a filled `sourceHash` string, and `deps` being an array. -/
def metaShapeOk (meta : MetaJson) (specifier : String) : Bool :=
  meta.specifier = some specifier &&
    (match meta.sourceHash with
     | some h => isFilledString h
     | none => false) &&
    meta.deps.isSome

/-- The outcome of inspecting the metadata sidecar in `#initModule`. -/
inductive MetaAction where
  | keep
  | discard
  | merge (meta : MetaJson)
deriving DecidableEq, Repr

/-- The metadata-sidecar decision of `#initModule`: when no forced refresh
was requested and a sidecar exists, a well-formed and consistent sidecar is
merged, a sidecar failing the shape check is discarded (warning + removal),
and a sidecar that fails to parse is silently ignored (the empty `catch`).
Reading happens before the fresh entry is published; the registration does
not touch the disk, so the decision is taken on the incoming state's
disk. -/
def metaAction (disk : Disk) (specifier jsFile : String) (forceRefresh : Bool) :
    MetaAction :=
  if ¬forceRefresh then
    match disk.getMeta jsFile with
    | some (some meta) =>
      if metaShapeOk meta specifier then .merge meta else .discard
    | some none => .keep
    | none => .keep
  else .keep

/-- The merged module produced by `Object.assign(mod, meta)` restricted to
the modelled fields: the checked fields overwrite, the optional flags
overwrite only when present in the sidecar. -/
def mergeMeta (mod0 : Module) (meta : MetaJson) : Module :=
  { mod0 with
    sourceHash := meta.sourceHash.getD ""
    deps := meta.deps.getD []
    httpExternal := meta.httpExternal.orElse (fun _ => mod0.httpExternal)
    isStyle := (meta.isStyle.orElse (fun _ => some mod0.isStyle)).getD false }

/-- The load-and-refresh tail of `#initModule`, entered when the module must
be (re)created: publishes the fresh entry in the registry, restores the
metadata sidecar (see `metaAction`), decides whether a fresh load is
needed, loads and hashes the source, and on failure deletes a newly created
entry while logging the error. -/
def initModuleLoad (ctx : Ctx) (st : AlephState) (specifier : String)
    (opts : CompileOptions) (data : String) (isNew : Bool) : InitOut :=
  let jsFile := jsFileOf specifier
  let mod0 : Module := { specifier, jsFile, httpExternal := opts.httpExternal }
  let act := metaAction st.disk specifier jsFile opts.forceRefresh
  let st := { st with
    modules := setModuleReg st.modules mod0
    appModule :=
      if trimBuiltinModuleExts specifier = "/app" then some specifier else st.appModule }
  let (st, mod1) :=
    match act with
    | .keep => (st, mod0)
    | .discard =>
      ({ st with
          warnLog := st.warnLog ++ ["removing invalid metadata of " ++ basename specifier]
          disk := st.disk.removeMeta jsFile }, mod0)
    | .merge meta =>
      let mod1 := mergeMeta mod0 meta
      ({ st with modules := setModuleReg st.modules mod1 }, mod1)
  if opts.virtual then ⟨st, mod1, none⟩
  else
    let isRemote := isLikelyHttpURL specifier && !(isLocalhostUrl specifier)
    let reload := ctx.reload && !(st.initSession.contains specifier)
    if !isRemote || mod1.sourceHash = "" || reload || (st.disk.getJs jsFile) = none then
      let st :=
        if reload then { st with initSession := st.initSession ++ [specifier] } else st
      let (st, srcE) : AlephState × Except String ModuleSource :=
        match opts.source with
        | some src => (st, .ok src)
        | none => resolveModuleSource ctx st specifier data
      match srcE with
      | .error e =>
        ⟨{ st with
            modules := if isNew then removeModuleReg st.modules specifier else st.modules
            errorLog := st.errorLog ++ [e] }, mod1, none⟩
      | .ok src =>
        let h := sourceHashOf ctx specifier src
        if mod1.sourceHash ≠ h then
          let mod2 := { mod1 with sourceHash := h }
          ⟨{ st with modules := setModuleReg st.modules mod2 }, mod2, some src⟩
        else
          ⟨st, mod1, none⟩
    else
      ⟨st, mod1, none⟩

/-- `#initModule(specifier, options)`: resolver chain (skipped when a custom
source is supplied), immediate return of an unregistered ready Module for
external resolutions, the registered-module fast path, and otherwise the
load-and-refresh tail. -/
def initModule (ctx : Ctx) (st : AlephState) (specifier : String)
    (opts : CompileOptions) : InitOut :=
  let (specifier, external, data) :=
    if opts.source.isNone then runResolvers ctx specifier else (specifier, false, "")
  if external then
    ⟨st, { specifier, deps := [], external := true, sourceHash := "", jsFile := "" }, none⟩
  else
    match getModuleReg st.modules specifier with
    | some mod =>
      if !opts.forceRefresh && !(!(isTruthy opts.httpExternal) && isTruthy mod.httpExternal) then
        ⟨st, mod, none⟩
      else
        initModuleLoad ctx st specifier opts data false
    | none => initModuleLoad ctx st specifier opts data true

/-- Registry write-back modelling in-place mutation of an already-registered
module object: the entry with the same specifier is replaced; nothing is
added when the object is no longer registered (e.g. a failed newly-created
module that was rolled back). -/
def setModuleRegIfPresent (ms : List Module) (m : Module) : List Module :=
  ms.map (fun e => if e.specifier = m.specifier then m else e)

/-- The result of `#transpileModule`: the state, the (mutated) module, the
shared tracing set and the fuel-sufficiency flag. -/
structure TranspileOut where
  st : AlephState
  module : Module
  tracing : List String
  ok : Bool
deriving Repr

/-- The abbreviation for the recursive transpile call threaded through the
dependency walk: the transpilation at one fuel level less. -/
abbrev TranspileRec :=
  AlephState → Module → Option ModuleSource → Bool → List String → TranspileOut

/-- The slow path of one dependency: `#initModule` with the importer's
`httpExternal` flag, then a recursive `#transpileModule` (same tracing set)
unless the dependency resolved external. -/
def depCompile (ctx : Ctx) (tm : TranspileRec) (st : AlephState) (module : Module)
    (dep : DependencyDescriptor) (tracing : List String) :
      AlephState × Module × List String × Bool :=
  let out := initModule ctx st dep.specifier { httpExternal := module.httpExternal }
  if !out.module.external then
    let t := tm out.st out.module out.source false tracing
    (t.st, t.module, t.tracing, t.ok)
  else
    (out.st, out.module, tracing, true)

/-- One-by-one processing of a module's dependency records (the
`Promise.all` fan-out executed in program order): resolve the dependency
module (fast path under `ignoreDeps`/virtual, otherwise init + recursive
transpile), then patch the importer's buffer at the recorded `hashLoc`. -/
def depsFold (ctx : Ctx) (tm : TranspileRec) :
    List DependencyDescriptor → AlephState → Module → Bool → Bool → List String → Bool →
      AlephState × Module × Bool × List String × Bool
  | [], st, module, _, fsync, tracing, ok => (st, module, fsync, tracing, ok)
  | dep :: rest, st, module, ignoreDeps, fsync, tracing, ok =>
    let (st, depModule, tracing, ok₁) :=
      if ignoreDeps || dep.virtual then
        match getModule st dep.specifier with
        | some dm => (st, dm, tracing, true)
        | none =>
          if dep.virtual then
            let out := initModule ctx st dep.specifier { virtual := true }
            (out.st, out.module, tracing, true)
          else
            depCompile ctx tm st module dep tracing
      else
        depCompile ctx tm st module dep tracing
    match dep.hashLoc with
    | some hashLoc =>
      let hash := computeModuleHash ctx st depModule
      let (module', changed) := replaceDepHash st.disk module hashLoc hash
      let st := { st with modules := setModuleRegIfPresent st.modules module' }
      depsFold ctx tm rest st module' ignoreDeps (fsync || changed) tracing (ok && ok₁)
    | none =>
      depsFold ctx tm rest st module ignoreDeps fsync tracing (ok && ok₁)

/-- The dependency block of `#transpileModule`: when the module has
dependencies, initializes/transpiles each of them (sequentialized fan-out)
and patches the module's own buffer at every recorded `hashLoc` with the
dependency's freshly computed aggregate hash, persisting the buffer when a
patch changed it. -/
def transpileDeps (ctx : Ctx) (tm : TranspileRec) (st : AlephState) (module : Module)
    (ignoreDeps : Bool) (tracing : List String) : TranspileOut :=
  if module.deps = [] then ⟨st, module, tracing, true⟩
  else
    let out := depsFold ctx tm module.deps st module ignoreDeps false tracing true
    if out.2.2.1 then
      ⟨cacheModule out.1 out.2.1, out.2.1, out.2.2.2.1, out.2.2.2.2⟩
    else
      ⟨out.1, out.2.1, out.2.2.2.1, out.2.2.2.2⟩

/-- The body of `#transpileModule(module, source, ignoreDeps, __tracing)`
at one fuel level, parameterized by the next-level recursive call: guarded
by the per-top-level-call tracing set (shared, threaded through all
recursive calls), transforms the loaded source (CSS loading, the external
transform collaborator — every invocation is recorded in `transformLog` —,
the production star-export rewrite, the plugin transform listeners, the
source-map footer), records the dependency hash-marker offsets found in the
output buffer, persists the artifact, and then walks the dependency list.
The `revert external imports` block of the source calls
`String.replaceAll` and discards its result, so it is a no-op and is not
modelled. -/
def transpileModuleBody (ctx : Ctx) (tm : TranspileRec) (st : AlephState)
    (module : Module) (source : Option ModuleSource) (ignoreDeps : Bool)
    (tracing : List String) : TranspileOut :=
  if module.specifier ∈ tracing then ⟨st, module, tracing, true⟩
  else
    let tracing := module.specifier :: tracing
    match source with
    | none => transpileDeps ctx tm st module ignoreDeps tracing
    | some src =>
      if src.type = SourceType.unknown then
        ⟨{ st with errorLog := st.errorLog ++ ["Unsupported module " ++ module.specifier] },
          module, tracing, true⟩
      else
        let (src, module) :=
          if src.type = SourceType.css then
            let (code, map) := ctx.cssLoaderF module.specifier src.code
            ({ src with code, map, type := SourceType.js },
              { module with isStyle := true })
          else (src, module)
        let ret :=
          if isLikelyHttpURL module.specifier && src.type ≠ SourceType.jsx &&
              src.type ≠ SourceType.tsx then
            ctx.fastTransformF module.specifier src
          else
            ctx.transformF module.specifier src
        let st := { st with transformLog := st.transformLog ++ [module.specifier] }
        let jsCode := ret.code
        let sourceMap := ret.map
        let jsCode :=
          if !ctx.isDev && ret.starExports ≠ [] then
            ctx.replaceStarExportsF module.specifier jsCode
          else jsCode
        let (jsCode, sourceMap, extraDeps) :=
          ctx.transformListeners.foldl
            (fun (acc : String × Option String × List DependencyDescriptor) t =>
              if t.test.matches module.specifier then
                let pret := t.transform module.specifier acc.1 acc.2.1
                ((match pret.code with
                  | some c => if isFilledString c then c else acc.1
                  | none => acc.1),
                  (match pret.map with
                  | some m => if isFilledString m then some m else acc.2.1
                  | none => acc.2.1),
                  acc.2.2 ++ pret.extraDeps)
              else acc)
            (jsCode, sourceMap, [])
        let jsCode :=
          match sourceMap with
          | some _ => jsCode ++ "\n//# sourceMappingURL=" ++ basename module.jsFile ++ ".map"
          | none => jsCode
        let jsBuffer := encodeStr jsCode
        let deps :=
          ((ret.deps.filter (fun d => d.specifier ≠ module.specifier)).map
            (fun d =>
              ({ specifier := d.specifier
                 isDynamic := d.isDynamic
                 hashLoc :=
                   if strStartsWith d.specifier "/" then
                     let mark := encodeStr d.resolved
                     match indexOfSub jsBuffer mark with
                     | some idx => if 0 < idx then some (idx + mark.length - 6) else none
                     | none => none
                   else none } : DependencyDescriptor))) ++ extraDeps
        let module := { module with jsBuffer := some jsBuffer, deps }
        let st := { st with modules := setModuleRegIfPresent st.modules module }
        let st := cacheModule st module
        transpileDeps ctx tm st module ignoreDeps tracing

/-- `#transpileModule` with explicit fuel bounding the recursion depth
(`ok = false` records exhaustion); structural recursion on the fuel so that
runs on concrete states compute. -/
def transpileModule (ctx : Ctx) (fuel : Nat) : TranspileRec :=
  Nat.rec (motive := fun _ => TranspileRec)
    (fun st module _ _ tracing => ⟨st, module, tracing, false⟩)
    (fun _ tm => transpileModuleBody ctx tm)
    fuel

/-- The result of a `compile` call. -/
structure CompileOut where
  st : AlephState
  module : Module
  ok : Bool
deriving Repr

/-- `compile(specifier, options)`: `#initModule` followed by
`#transpileModule` (with a fresh tracing set) unless the module resolved
external. -/
def compile (ctx : Ctx) (fuel : Nat) (st : AlephState) (specifier : String)
    (opts : CompileOptions := {}) : CompileOut :=
  let out := initModule ctx st specifier opts
  if !out.module.external then
    let t := transpileModule ctx fuel out.st out.module out.source opts.ignoreDeps []
    ⟨t.st, t.module, t.ok⟩
  else
    ⟨out.st, out.module, true⟩

/-- `#isPageModule(specifier)`. -/
def isPageModule (ctx : Ctx) (specifier : String) : Bool :=
  if !strStartsWith specifier "/pages/" then false
  else if builtinModuleExts.any (fun ext => strEndsWith specifier ("." ++ ext)) then true
  else ctx.resolvers.any (fun r => r.test specifier && (r.resolve specifier).asPage)

/-- `addModule(specifier, sourceCode, forceRefresh)`: rejects specifiers
whose extension maps to no known source type before touching any state,
otherwise compiles from the custom source and updates the page/API routing
tables.  The routing-table update payload is modelled by the route-owning
specifier. -/
def addModule (ctx : Ctx) (fuel : Nat) (st : AlephState) (specifier : String)
    (sourceCode : String) (forceRefresh : Bool := false) :
      AlephState × Except String Module :=
  let sourceType := getSourceType specifier
  if sourceType = SourceType.unknown then
    (st, .error "addModule: unknown source type")
  else
    let source : ModuleSource := { code := sourceCode, type := sourceType }
    let c := compile ctx fuel st specifier { source := some source, forceRefresh }
    let specifier :=
      if strStartsWith specifier "pages/" || strStartsWith specifier "api/" then
        "/" ++ specifier
      else specifier
    let st := c.st
    let st :=
      if strStartsWith specifier "/pages/" && isPageModule ctx specifier then
        { st with pageRouting := st.pageRouting ++ [specifier] }
      else if strStartsWith specifier "/api/" && !strStartsWith specifier "/api/_middlewares." then
        { st with apiRouting := st.apiRouting ++ [specifier] }
      else st
    let module := { c.module with source := some source }
    ({ st with modules := setModuleRegIfPresent st.modules module }, .ok module)

/-! ## Concrete scenarios

Small closed instances used to exercise the model: a two-module import
cycle with recorded hash-marker sites, a resolver marking everything
external, a corrupt metadata sidecar, a failing loader, and plugin
configurations that differ only in registration order. -/

/-- A module `/a.ts` whose compiled buffer embeds `/b.ts`'s aggregate hash
at offset 0. -/
def modA : Module :=
  { specifier := "/a.ts", deps := [{ specifier := "/b.ts", hashLoc := some 0 }],
    sourceHash := "AAAAAA", jsFile := "/a.js", jsBuffer := some (encodeStr ("XXXXXX")) }

/-- A module `/b.ts` whose compiled buffer embeds `/a.ts`'s aggregate hash
at offset 0. -/
def modB : Module :=
  { specifier := "/b.ts", deps := [{ specifier := "/a.ts", hashLoc := some 0 }],
    sourceHash := "BBBBBB", jsFile := "/b.js", jsBuffer := some (encodeStr ("XXXXXX")) }

/-- A registry holding the `/a.ts` ↔ `/b.ts` cycle with stale markers. -/
def stAB : AlephState := { modules := [modA, modB] }

/-- The default context: no plugins, identity digests. -/
def ctx0 : Ctx := {}

/-- A context whose resolver chain marks every specifier external. -/
def ctxExternal : Ctx :=
  { resolvers := [{ test := fun _ => true, resolve := fun _ => { external := true } }] }

/-- A context whose direct fetch succeeds with a JavaScript source. -/
def ctxFetchOk : Ctx :=
  { fetchModule := fun _ => .ok (encodeStr ("const x = 1"), some ("application/javascript")) }

/-- A state holding an unparsable metadata sidecar for `/m.ts`. -/
def stBadMeta : AlephState := { disk := { metas := [("/m.js", none)] } }

/-- A previously compiled module in a valid state. -/
def prevM : Module :=
  { specifier := "/m.ts", sourceHash := "h1", deps := [{ specifier := "/d.ts" }],
    jsFile := "/m.js", jsBuffer := some [1, 2, 3] }

/-- A registry holding `prevM`; the default context's fetch fails, so a
forced refresh of `/m.ts` fails its load. -/
def stPrev : AlephState := { modules := [prevM] }

/-- Two plugins, `p1` before `p2`, both registering an always-matching
transform listener. -/
def ctxPluginsPQ : Ctx :=
  { plugins := [{ name := "p1", checksum := some ("cks1") },
                { name := "p2", checksum := some ("cks2") }],
    transformListeners := [{ pluginId := 0, test := .pattern (fun _ => true),
                             transform := fun _ _ _ => {} },
                           { pluginId := 1, test := .pattern (fun _ => true),
                             transform := fun _ _ _ => {} }] }

/-- The same two plugins registered in the opposite order (`p2` obtains
plugin id 0); nothing else differs. -/
def ctxPluginsQP : Ctx :=
  { plugins := [{ name := "p2", checksum := some ("cks2") },
                { name := "p1", checksum := some ("cks1") }],
    transformListeners := [{ pluginId := 0, test := .pattern (fun _ => true),
                             transform := fun _ _ _ => {} },
                           { pluginId := 1, test := .pattern (fun _ => true),
                             transform := fun _ _ _ => {} }] }

/-- A fixed JavaScript source sample. -/
def srcSample : ModuleSource := { code := "const c = 1", type := SourceType.js }

/-- A context realising the `A→B→A` import cycle: the fetcher serves both
modules and the transform collaborator reports the circular dependency. -/
def ctxCycle : Ctx :=
  { fetchModule := fun s =>
      if s = "/a.ts" then .ok (encodeStr ("import b"), none)
      else if s = "/b.ts" then .ok (encodeStr ("import a"), none)
      else .error ("nf")
    transformF := fun s src =>
      if s = "/a.ts" then
        { code := src.code, deps := [{ specifier := "/b.ts", resolved := "x./b.js#abcdef" }] }
      else if s = "/b.ts" then
        { code := src.code, deps := [{ specifier := "/a.ts", resolved := "x./a.js#abcdef" }] }
      else { code := src.code } }

/-- Whether a recorded dependency hash-marker site of module `m` already
holds the dependency's current aggregate hash (vacuously true when no
offset was recorded). -/
def cleanDepSite (ctx : Ctx) (st : AlephState) (m : Module)
    (d : DependencyDescriptor) : Bool :=
  match d.hashLoc, m.jsBuffer with
  | none, _ => true
  | some _, none => false
  | some loc, some buf =>
    match getModuleReg st.modules d.specifier with
    | none => false
    | some dm =>
      sliceList buf loc (loc + 6) = encodeStr ((computeModuleHash ctx st dm).take 6)

/-- A registry state in which a re-compilation pass has nothing to do:
specifiers are unique, no module is external or http-external, every
dependency is non-virtual, resolver-neutral and registered, and every
recorded hash-marker site already holds the dependency's current aggregate
hash.  This is the state a completed compilation pass leaves behind. -/
def CleanState (ctx : Ctx) (st : AlephState) : Prop :=
  (st.modules.map (fun m => m.specifier)).Nodup ∧
  ∀ m ∈ st.modules,
    m.external = false ∧ isTruthy m.httpExternal = false ∧
    ∀ d ∈ m.deps,
      d.virtual = false ∧
      runResolvers ctx d.specifier = (d.specifier, false, "") ∧
      (getModuleReg st.modules d.specifier).isSome = true ∧
      cleanDepSite ctx st m d = true

instance (ctx : Ctx) (st : AlephState) : Decidable (CleanState ctx st) := by
  unfold CleanState
  exact inferInstance

/-- A compiled `/a.ts` whose buffer already embeds `/b.ts`'s current
aggregate hash at offset 0. -/
def modCleanA : Module :=
  { specifier := "/a.ts", sourceHash := "aaaaaaaa", jsFile := "/a.js",
    deps := [{ specifier := "/b.ts", hashLoc := some 0 }],
    jsBuffer := some (encodeStr ("bbbbbb")) }

/-- A compiled `/b.ts` with no dependencies. -/
def modCleanB : Module :=
  { specifier := "/b.ts", sourceHash := "bbbbbbbb", jsFile := "/b.js",
    jsBuffer := some (encodeStr ("zz")) }

/-- A clean two-module state: `/a.ts` depends on `/b.ts` and all recorded
hash sites are current. -/
def stClean : AlephState := { modules := [modCleanA, modCleanB] }

/-- The transform-log discipline of one (possibly recursive) transpile
call: the log grows by a duplicate-free batch of specifiers, none of which
was in the incoming tracing set and all of which are in the outgoing one,
and the tracing set only grows. -/
def LogSpec (l₀ l₁ tr₀ tr₁ : List String) : Prop :=
  (∀ s ∈ tr₀, s ∈ tr₁) ∧
  ∃ Δ, l₁ = l₀ ++ Δ ∧ Δ.Nodup ∧ ∀ s ∈ Δ, s ∉ tr₀ ∧ s ∈ tr₁

/-- Whether byte offset `i` of a module's compiled buffer lies inside one
of the 6-byte dependency hash-marker windows recorded in `deps`. -/
def siteAt (deps : List DependencyDescriptor) (i : Nat) : Bool :=
  deps.any (fun d =>
    match d.hashLoc with
    | some l => decide (l ≤ i) && decide (i < l + 6)
    | none => false)

/-- What cascade propagation may do to one registered module: every field
other than the compiled buffer and the cached `csrCode` is untouched, and
the buffer either survives unchanged (together with `csrCode`) or keeps
its length with every byte outside the recorded hash-marker windows intact
while the cached `csrCode` is invalidated. -/
def ModFrame (m m' : Module) : Prop :=
  m'.specifier = m.specifier ∧ m'.sourceHash = m.sourceHash ∧ m'.deps = m.deps ∧
  m'.jsFile = m.jsFile ∧ m'.external = m.external ∧
  m'.httpExternal = m.httpExternal ∧ m'.isStyle = m.isStyle ∧
  m'.source = m.source ∧
  ((m'.jsBuffer = m.jsBuffer ∧ m'.csrCode = m.csrCode) ∨
    ∃ buf buf', m.jsBuffer = some buf ∧ m'.jsBuffer = some buf' ∧
      buf'.length = buf.length ∧
      (∀ i, siteAt m.deps i = false → buf'.get? i = buf.get? i) ∧
      m'.csrCode = false)

/-- The cascade frame between two states: the registries are pointwise in
`ModFrame` (same specifiers, same order) and the transform log is
untouched. -/
def StFrame (st st' : AlephState) : Prop :=
  List.Forall₂ ModFrame st.modules st'.modules ∧
  st'.transformLog = st.transformLog ∧
  st'.appModule = st.appModule

/-- Whether the hash-marker site recorded by dependency record `d` of
module `m` holds the first six bytes of the hash that the assignment `H`
gives `d`'s dependency (sites without a recorded offset are vacuously
clean; a site cannot be judged without the buffer). -/
def siteCleanH (H : String → String) (m : Module) (d : DependencyDescriptor) : Bool :=
  match d.hashLoc, m.jsBuffer with
  | some loc, some buf =>
    sliceList buf loc (loc + 6) = encodeStr ((H d.specifier).take 6)
  | some _, none => false
  | none, _ => true

/-- The number of hash-marker sites across a registry that do not yet hold
the hash assigned by `H`: the termination measure of cascade propagation
(patches only ever clean sites, and recursion requires a patch). -/
def dirtyCountH (H : String → String) (ms : List Module) : Nat :=
  (ms.map (fun m => (m.deps.filter (fun d => !(siteCleanH H m d))).length)).sum

/-- Every recorded hash-marker window of the module fits inside its
compiled buffer. -/
def windowFits (m : Module) : Bool :=
  m.deps.all (fun d =>
    match d.hashLoc, m.jsBuffer with
    | some loc, some buf => decide (loc + 6 ≤ buf.length)
    | some _, none => false
    | none, _ => true)

/-- Two recorded hash-marker windows of the module are identical (same
dependency specifier at the same offset) or disjoint. -/
def windowsSeparated (m : Module) : Bool :=
  m.deps.all (fun d₁ =>
    m.deps.all (fun d₂ =>
      match d₁.hashLoc, d₂.hashLoc with
      | some l₁, some l₂ =>
        decide (l₁ + 6 ≤ l₂) || decide (l₂ + 6 ≤ l₁) ||
          (decide (l₁ = l₂) && decide (d₁.specifier = d₂.specifier))
      | _, _ => true))

/-- The invariant under which cascade propagation terminates: unique
specifiers, in-memory compiled buffers, sane hash-marker windows, and an
assignment `H` of the current aggregate hash to every registered module
(aggregate hashes only depend on `sourceHash` fields and the dependency
graph, which patches never touch, so `H` stays correct). -/
def CascadeInv (ctx : Ctx) (H : String → String) (st : AlephState) : Prop :=
  (st.modules.map (fun m => m.specifier)).Nodup ∧
  (∀ m ∈ st.modules, m.jsBuffer.isSome = true) ∧
  (∀ m ∈ st.modules, windowFits m = true ∧ windowsSeparated m = true) ∧
  (∀ m ∈ st.modules, computeModuleHash ctx st m = H m.specifier)

/-- The changed module handed to a cascade-propagation call corresponds to
a registered module with the same `sourceHash` (true of every call site:
the compiling pass and the recursion both pass registered modules). -/
def byModGood (st : AlephState) (byMod : Module) : Prop :=
  ∃ dm, getModuleReg st.modules byMod.specifier = some dm ∧
    dm.sourceHash = byMod.sourceHash

/-- A context whose md5 collaborator returns a fixed six-character digest,
used to exercise cascade termination on the two-module cycle. -/
def ctxHash : Ctx := { md5 := fun _ => "FFFFFF" }

/-- The aggregate-hash assignment matching `ctxHash` (every aggregate hash
is the fixed digest). -/
def HW : String → String := fun _ => "FFFFFF"

/-! ## Registry lemmas -/

theorem find?_spec_map_update (ms : List Module) (m : Module)
    (h : ms.any (fun e => e.specifier = m.specifier)) :
    (ms.map (fun e => if e.specifier = m.specifier then m else e)).find?
      (fun e => e.specifier = m.specifier) = some m := by
  induction ms with
  | nil => simp at h
  | cons e es ih =>
    by_cases he : e.specifier = m.specifier
    · simp [he]
    · have h2 : es.any (fun x => x.specifier = m.specifier) = true := by
        simpa [he] using h
      simpa [he] using ih h2

theorem find?_spec_append_self (ms : List Module) (m : Module)
    (h : ¬ ms.any (fun e => e.specifier = m.specifier)) :
    (ms ++ [m]).find? (fun e => e.specifier = m.specifier) = some m := by
  induction ms with
  | nil => simp
  | cons e es ih =>
    simp only [List.any_cons, Bool.or_eq_true, decide_eq_true_eq, not_or] at h
    have he : ¬ e.specifier = m.specifier := h.1
    simpa [he] using ih (by simpa using h.2)

theorem getModuleReg_setModuleReg_self (ms : List Module) (m : Module) :
    getModuleReg (setModuleReg ms m) m.specifier = some m := by
  unfold getModuleReg setModuleReg
  by_cases h : ms.any (fun e => e.specifier = m.specifier)
  · rw [if_pos h]
    exact find?_spec_map_update ms m h
  · rw [if_neg h]
    exact find?_spec_append_self ms m h

theorem getModuleReg_removeModuleReg_self (ms : List Module) (s : String) :
    getModuleReg (removeModuleReg ms s) s = none := by
  unfold getModuleReg removeModuleReg
  rw [List.find?_eq_none]
  intro m hm
  have := List.of_mem_filter hm
  simpa using this

theorem metaAction_parsefail {disk : Disk} {specifier jsFile : String}
    (h : disk.getMeta jsFile = some none) :
    metaAction disk specifier jsFile false = .keep := by
  unfold metaAction
  rw [h]
  simp

theorem metaAction_missing {disk : Disk} {specifier jsFile : String}
    (h : disk.getMeta jsFile = none) :
    metaAction disk specifier jsFile false = .keep := by
  unfold metaAction
  rw [h]
  simp

theorem metaAction_shapefail {disk : Disk} {specifier jsFile : String}
    {meta : MetaJson} (h : disk.getMeta jsFile = some (some meta))
    (hshape : metaShapeOk meta specifier = false) :
    metaAction disk specifier jsFile false = .discard := by
  unfold metaAction
  rw [h]
  simp [hshape]

theorem metaAction_merge {disk : Disk} {specifier jsFile : String}
    {meta : MetaJson} (h : disk.getMeta jsFile = some (some meta))
    (hshape : metaShapeOk meta specifier = true) :
    metaAction disk specifier jsFile false = .merge meta := by
  unfold metaAction
  rw [h]
  simp [hshape]

theorem metaAction_refresh {disk : Disk} {specifier jsFile : String} :
    metaAction disk specifier jsFile true = .keep := by
  unfold metaAction
  simp

theorem getMeta_removeMeta_self (d : Disk) (k : String) :
    (d.removeMeta k).getMeta k = none := by
  unfold Disk.getMeta Disk.removeMeta
  have h : (List.filter (fun e => decide (e.1 ≠ k)) d.metas).find?
      (fun e => e.1 = k) = none := by
    rw [List.find?_eq_none]
    intro e he
    have := List.of_mem_filter he
    simpa using this
  rw [h]
  rfl

theorem getModuleReg_mem {ms : List Module} {s : String} {m : Module}
    (h : getModuleReg ms s = some m) : m ∈ ms ∧ m.specifier = s := by
  unfold getModuleReg at h
  refine ⟨List.mem_of_find?_eq_some h, ?_⟩
  have := List.find?_some h
  simpa using this

/-! ## Claim theorems -/

/-- C10: for a specifier whose extension maps to no known source type,
`addModule` throws `Error("addModule: unknown source type")` before
creating, compiling or registering anything: the returned state is the
input state, so the registry and both routing tables are unchanged.
(`getSourceType` itself lives in `server/helper.ts`, which is not included
under `src/`, and is modelled from the spec.) -/
theorem addModule_unknown_source_type (ctx : Ctx) (fuel : Nat) (st : AlephState)
    (specifier sourceCode : String)
    (h : getSourceType specifier = SourceType.unknown) :
    addModule ctx fuel st specifier sourceCode =
      (st, .error ("addModule: unknown source type")) := by
  unfold addModule
  rw [h]
  simp

/-- Witness for C10 at the concrete specifier `/x.wasm`. -/
theorem addModule_unknown_source_type_witness :
    getSourceType ("/x.wasm") = SourceType.unknown ∧
      addModule ctx0 1 {} ("/x.wasm") ("code") =
        ({}, .error ("addModule: unknown source type")) := by
  refine ⟨by decide, ?_⟩
  exact addModule_unknown_source_type ctx0 1 {} ("/x.wasm") ("code") (by decide)

/-- C7 counterexample: the claim states that an externally resolved
specifier is *registered*; in the code the external Module is returned
without ever being added to the registry.  With a resolver marking `/x.ts`
external, the module comes back external and ready, yet the registry does
not contain it. -/
theorem initModule_external_cex :
    (initModule ctxExternal {} ("/x.ts") {}).module.external = true ∧
      getModuleReg (initModule ctxExternal {} ("/x.ts") {}).st.modules ("/x.ts") = none := by
  constructor
  · rfl
  · rfl

/-- C7 (amended): when the resolver chain (first match wins) resolves a
specifier as external, `compile` returns — without touching any state, in
particular without registering the module, invoking the Loader or the
transform collaborator — an immediately-ready external Module with no deps,
empty `sourceHash`, no compiled bytes and `source = null`. -/
theorem compile_external_unregistered (ctx : Ctx) (fuel : Nat) (st : AlephState)
    (specifier : String) (opts : CompileOptions) (r : ResolveListener)
    (hsrc : opts.source = none)
    (hfind : ctx.resolvers.find? (fun l => l.test specifier) = some r)
    (hext : (r.resolve specifier).external = true) :
    compile ctx fuel st specifier opts =
      ⟨st,
        { specifier :=
            if (r.resolve specifier).specifier ≠ "" then (r.resolve specifier).specifier
            else specifier
          deps := [], external := true, sourceHash := "", jsFile := "" },
        true⟩ := by
  unfold compile initModule runResolvers
  rw [hsrc]
  simp only [Option.isNone_none, if_pos, hfind, hext]
  simp

/-- Witness for C7's amended theorem with the always-external resolver. -/
theorem compile_external_unregistered_witness :
    compile ctxExternal 1 {} ("/x.ts") {} =
      ⟨{}, { specifier := "/x.ts", deps := [], external := true, sourceHash := "",
             jsFile := "" }, true⟩ := by
  have h := compile_external_unregistered ctxExternal 1 {} ("/x.ts") {}
    { test := fun _ => true, resolve := fun _ => { external := true } } rfl rfl rfl
  simpa using h

/-- C8 counterexample: the claim states that a corrupt sidecar is
*discarded*; an unparsable sidecar is in fact swallowed by the empty
`catch` and left on disk.  With an unparsable sidecar for `/m.ts`, the
sidecar is still present after `#initModule` even though the fresh load
went ahead (`source` is returned for transpilation). -/
theorem initModule_corrupt_meta_cex :
    (initModule ctxFetchOk stBadMeta ("/m.ts") {}).st.disk.getMeta ("/m.js") = some none ∧
      (initModule ctxFetchOk stBadMeta ("/m.ts") {}).source =
        some { code := "const x = 1", type := SourceType.ts } := by
  constructor
  · rfl
  · decide

/-- C8 (amended): a corrupt or inconsistent metadata sidecar is treated as
a cache miss — its content is never merged into the Module, a fresh load
proceeds and no error is recorded — but only a sidecar failing the shape
check is removed from disk (with a warning); a sidecar that fails to parse
is silently left on disk by the empty `catch`. -/
theorem initModule_corrupt_meta_cache_miss (ctx : Ctx) (st : AlephState)
    (specifier data : String) (mj? : Option MetaJson) (src : ModuleSource)
    (hres : runResolvers ctx specifier = (specifier, false, data))
    (hreg : getModuleReg st.modules specifier = none)
    (hmeta : st.disk.getMeta (jsFileOf specifier) = some mj?)
    (hcorrupt : ∀ mj, mj? = some mj → metaShapeOk mj specifier = false)
    (hlocal : isLikelyHttpURL specifier = false)
    (hload : resolveModuleSourceE ctx specifier data = .ok src)
    (hhash : sourceHashOf ctx specifier src ≠ "") :
    (initModule ctx st specifier {}).source = some src ∧
      (initModule ctx st specifier {}).module.sourceHash = sourceHashOf ctx specifier src ∧
      (initModule ctx st specifier {}).module.deps = [] ∧
      (initModule ctx st specifier {}).st.errorLog = st.errorLog ∧
      (mj? = none →
        (initModule ctx st specifier {}).st.disk.getMeta (jsFileOf specifier) = some none ∧
          (initModule ctx st specifier {}).st.warnLog = st.warnLog) ∧
      (∀ mj, mj? = some mj →
        (initModule ctx st specifier {}).st.disk.getMeta (jsFileOf specifier) = none ∧
          (initModule ctx st specifier {}).st.warnLog =
            st.warnLog ++ ["removing invalid metadata of " ++ basename specifier]) := by
  have h1 : initModule ctx st specifier {} =
      initModuleLoad ctx st specifier {} data true := by
    unfold initModule
    rw [show ({} : CompileOptions).source = none from rfl]
    simp only [Option.isNone_none, if_true, hres, hreg]
    simp
  rw [h1]
  unfold initModuleLoad
  dsimp only
  cases mj? with
  | none =>
    rw [metaAction_parsefail (show _ = some none from hmeta)]
    unfold resolveModuleSource
    simp only [hlocal, hload, Bool.false_and, Bool.not_false, Bool.true_or,
      Bool.false_eq_true, if_false, if_true]
    rw [if_pos (Ne.symm hhash)]
    by_cases hrel : (ctx.reload && !(st.initSession.contains specifier)) = true
    · simp only [hrel, if_true]
      and_intros <;>
        first
          | trivial
          | (intro h12; simp at h12)
          | (intro h12; exact ⟨by exact hmeta, by trivial⟩)
          | (intro mj2 h12; simp at h12)
    · simp only [hrel, if_false]
      and_intros <;>
        first
          | trivial
          | (intro h12; simp at h12)
          | (intro h12; exact ⟨by exact hmeta, by trivial⟩)
          | (intro mj2 h12; simp at h12)
  | some mj =>
    rw [metaAction_shapefail (show _ = some (some mj) from hmeta) (hcorrupt mj rfl)]
    unfold resolveModuleSource
    simp only [hlocal, hload, Bool.false_and, Bool.not_false, Bool.true_or,
      Bool.false_eq_true, if_false, if_true]
    rw [if_pos (Ne.symm hhash)]
    by_cases hrel : (ctx.reload && !(st.initSession.contains specifier)) = true
    · simp only [hrel, if_true]
      and_intros <;>
        first
          | trivial
          | (intro h12; simp at h12)
          | (intro mj2 h12; exact ⟨by exact getMeta_removeMeta_self _ _, by trivial⟩)
    · simp only [hrel, if_false]
      and_intros <;>
        first
          | trivial
          | (intro h12; simp at h12)
          | (intro mj2 h12; exact ⟨by exact getMeta_removeMeta_self _ _, by trivial⟩)

/-- Witness for C8's amended theorem: unparsable sidecar for `/m.ts`, load
served by the direct fetcher. -/
theorem initModule_corrupt_meta_cache_miss_witness :
    (initModule ctxFetchOk stBadMeta ("/m.ts") {}).source =
      some { code := "const x = 1", type := SourceType.ts } :=
  (initModule_corrupt_meta_cache_miss ctxFetchOk stBadMeta ("/m.ts") ("") none
    { code := "const x = 1", type := SourceType.ts } rfl rfl rfl
    (fun _ h => nomatch h) rfl rfl (by decide)).1

/-- C4 counterexample: the claim states a pre-existing module's registry
entry is left in its previous valid state when `#initModule` fails.  With
`/m.ts` registered in a valid state (`prevM`) and a failing load under
`forceRefresh`, the registry still has an entry for `/m.ts` afterwards, but
it is the freshly created blank entry, not `prevM`. -/
theorem initModule_failure_prev_state_cex :
    ((getModuleReg (initModule ctx0 stPrev ("/m.ts")
        { forceRefresh := true }).st.modules ("/m.ts")).isSome = true) ∧
      getModuleReg (initModule ctx0 stPrev ("/m.ts")
        { forceRefresh := true }).st.modules ("/m.ts") ≠ some prevM := by
  constructor
  · rfl
  · intro h
    have : prevM.sourceHash = "" := by
      have h2 := congrArg (fun o => (o.map (fun m => m.sourceHash)).getD ("x")) h
      simpa using h2.symm
    simp [prevM] at this

/-- C4 (amended): if `#initModule` fails during source load (with
`forceRefresh`, so no metadata restore happens), it resolves the module's
ready signal with a logged error and returns `source = null`; a newly
created module is removed from the registry, whereas for a pre-existing
module the registry entry is *replaced by the freshly created blank entry*
(the previous in-memory state is lost); failures during metadata parsing
never reach this path (they are swallowed by the empty `catch`, see C8). -/
theorem initModule_load_failure (ctx : Ctx) (st : AlephState)
    (specifier data e : String) (opts : CompileOptions)
    (hsrc : opts.source = none) (hforce : opts.forceRefresh = true)
    (hvirt : opts.virtual = false)
    (hres : runResolvers ctx specifier = (specifier, false, data))
    (hload : resolveModuleSourceE ctx specifier data = .error e) :
    (initModule ctx st specifier opts).source = none ∧
      (initModule ctx st specifier opts).st.errorLog = st.errorLog ++ [e] ∧
      (initModule ctx st specifier opts).st.transformLog = st.transformLog ∧
      (getModuleReg st.modules specifier = none →
        getModuleReg (initModule ctx st specifier opts).st.modules specifier = none) ∧
      (∀ prev, getModuleReg st.modules specifier = some prev →
        getModuleReg (initModule ctx st specifier opts).st.modules specifier =
          some { specifier := specifier, jsFile := jsFileOf specifier,
                 httpExternal := opts.httpExternal }) := by
  have h1 : ∀ isNew, initModuleLoad ctx st specifier opts data isNew =
      ⟨{ st with
          modules :=
            if isNew then
              removeModuleReg (setModuleReg st.modules
                { specifier := specifier, jsFile := jsFileOf specifier,
                  httpExternal := opts.httpExternal }) specifier
            else
              setModuleReg st.modules
                { specifier := specifier, jsFile := jsFileOf specifier,
                  httpExternal := opts.httpExternal }
          appModule :=
            if trimBuiltinModuleExts specifier = "/app" then some specifier
            else st.appModule
          initSession :=
            if (ctx.reload && !(st.initSession.contains specifier)) = true then
              st.initSession ++ [specifier]
            else st.initSession
          loadLog := st.loadLog ++ [specifier]
          errorLog := st.errorLog ++ [e] },
        { specifier := specifier, jsFile := jsFileOf specifier,
          httpExternal := opts.httpExternal }, none⟩ := by
    intro isNew
    unfold initModuleLoad
    rw [hforce, hvirt]
    dsimp only
    rw [metaAction_refresh]
    unfold resolveModuleSource
    rw [hsrc, hload]
    by_cases hrel : (ctx.reload && !(st.initSession.contains specifier)) = true
    all_goals
      simp only [hrel, if_true, Bool.false_eq_true, if_false, Bool.true_or, Bool.or_true,
        decide_True, Bool.or_false, Bool.false_or]
  have h2 : initModule ctx st specifier opts =
      initModuleLoad ctx st specifier opts data
        (getModuleReg st.modules specifier).isNone := by
    unfold initModule
    rw [hsrc]
    simp only [Option.isNone_none, if_true, hres]
    cases hg : getModuleReg st.modules specifier with
    | none => simp
    | some mod => simp [hforce]
  rw [h2, h1]
  refine ⟨rfl, rfl, rfl, ?_, ?_⟩
  · intro hg
    rw [hg]
    simp only [Option.isNone_none, if_true]
    exact getModuleReg_removeModuleReg_self _ _
  · intro prev hg
    rw [hg]
    simp only [Option.isNone_some, Bool.false_eq_true, if_false]
    exact getModuleReg_setModuleReg_self _ _

/-- Witness for C4's amended theorem: the failing forced refresh of
`/m.ts` over the registry holding `prevM`. -/
theorem initModule_load_failure_witness :
    (initModule ctx0 stPrev ("/m.ts") { forceRefresh := true }).source = none ∧
      getModuleReg (initModule ctx0 stPrev ("/m.ts")
          { forceRefresh := true }).st.modules ("/m.ts") =
        some { specifier := "/m.ts", jsFile := jsFileOf ("/m.ts"), httpExternal := none } := by
  have h := initModule_load_failure ctx0 stPrev ("/m.ts") ("")
    ("No such file: /m.ts") { forceRefresh := true } rfl rfl rfl rfl rfl
  exact ⟨h.1, h.2.2.2.2 prevM rfl⟩

/-! ## Order lemmas for the import-map key sort -/

theorem charToNat_inj {a b : Char} (h : a.toNat = b.toNat) : a = b := by
  have hv : a.val.toNat = b.val.toNat := h
  exact Char.eq_of_val_eq (@UInt32.toNat.inj a.val b.val hv)

theorem lexLe_total : ∀ a b : List Char, lexLe a b = true ∨ lexLe b a = true
  | [], _ => Or.inl rfl
  | _ :: _, [] => Or.inr rfl
  | a :: as, b :: bs => by
    unfold lexLe
    by_cases h1 : a.toNat < b.toNat
    · left
      rw [if_pos h1]
    · by_cases h2 : b.toNat < a.toNat
      · right
        rw [if_pos h2]
      · rw [if_neg h1, if_neg h2, if_neg h2, if_neg h1]
        exact lexLe_total as bs

theorem lexLe_antisymm : ∀ {a b : List Char},
    lexLe a b = true → lexLe b a = true → a = b
  | [], [], _, _ => rfl
  | [], _ :: _, _, h2 => by simp [lexLe] at h2
  | _ :: _, [], h1, _ => by simp [lexLe] at h1
  | a :: as, b :: bs, h1, h2 => by
    unfold lexLe at h1 h2
    by_cases hab : a.toNat < b.toNat
    · rw [if_neg (Nat.lt_asymm hab), if_pos hab] at h2
      cases h2
    · by_cases hba : b.toNat < a.toNat
      · rw [if_neg hab, if_pos hba] at h1
        cases h1
      · have he : a.toNat = b.toNat := Nat.le_antisymm (Nat.not_lt.mp hba) (Nat.not_lt.mp hab)
        rw [if_neg hab, if_neg hba] at h1
        rw [if_neg hba, if_neg hab] at h2
        rw [charToNat_inj he, lexLe_antisymm h1 h2]

theorem lexLe_trans : ∀ a b c : List Char,
    lexLe a b = true → lexLe b c = true → lexLe a c = true
  | [], _, _, _, _ => rfl
  | _ :: _, [], _, h1, _ => by simp [lexLe] at h1
  | _ :: _, _ :: _, [], _, h2 => by simp [lexLe] at h2
  | a :: as, b :: bs, c :: cs, h1, h2 => by
    unfold lexLe at h1 h2 ⊢
    by_cases hab : a.toNat < b.toNat
    · by_cases hbc : b.toNat < c.toNat
      · rw [if_pos (Nat.lt_trans hab hbc)]
      · by_cases hcb : c.toNat < b.toNat
        · rw [if_neg hbc, if_pos hcb] at h2
          cases h2
        · have he : b.toNat = c.toNat := Nat.le_antisymm (Nat.not_lt.mp hcb) (Nat.not_lt.mp hbc)
          rw [if_pos (he ▸ hab)]
    · by_cases hba : b.toNat < a.toNat
      · rw [if_neg hab, if_pos hba] at h1
        cases h1
      · have he : a.toNat = b.toNat := Nat.le_antisymm (Nat.not_lt.mp hba) (Nat.not_lt.mp hab)
        by_cases hbc : b.toNat < c.toNat
        · rw [if_pos (he ▸ hbc)]
        · by_cases hcb : c.toNat < b.toNat
          · rw [if_neg hbc, if_pos hcb] at h2
            cases h2
          · have he2 : b.toNat = c.toNat := Nat.le_antisymm (Nat.not_lt.mp hcb) (Nat.not_lt.mp hbc)
            have hac : ¬ a.toNat < c.toNat := by omega
            have hca : ¬ c.toNat < a.toNat := by omega
            rw [if_neg hab, if_neg hba] at h1
            rw [if_neg hbc, if_neg hcb] at h2
            rw [if_neg hac, if_neg hca]
            exact lexLe_trans as bs cs h1 h2

theorem strLe_total (a b : String) : strLe a b = true ∨ strLe b a = true :=
  lexLe_total a.data b.data

theorem strLe_antisymm {a b : String} (h1 : strLe a b = true)
    (h2 : strLe b a = true) : a = b := by
  cases a with
  | mk da =>
    cases b with
    | mk db =>
      have : da = db := lexLe_antisymm h1 h2
      rw [this]

theorem strLe_trans {a b c : String} (h1 : strLe a b = true)
    (h2 : strLe b c = true) : strLe a c = true :=
  lexLe_trans a.data b.data c.data h1 h2

theorem sortInsert_perm (le : α → α → Bool) (x : α) :
    ∀ l : List α, (sortInsert le x l).Perm (x :: l)
  | [] => List.Perm.refl _
  | y :: ys => by
    unfold sortInsert
    by_cases h : le x y = true
    · rw [if_pos h]
    · rw [if_neg h]
      exact ((sortInsert_perm le x ys).cons y).trans (List.Perm.swap x y ys)

theorem sortBy_perm (le : α → α → Bool) : ∀ l : List α, (sortBy le l).Perm l
  | [] => List.Perm.refl _
  | x :: xs => by
    unfold sortBy
    exact (sortInsert_perm le x (sortBy le xs)).trans ((sortBy_perm le xs).cons x)

theorem sortInsert_sorted (le : α → α → Bool)
    (htrans : ∀ a b c, le a b = true → le b c = true → le a c = true)
    (htotal : ∀ a b, le a b = true ∨ le b a = true) (x : α) :
    ∀ l : List α, l.Pairwise (fun a b => le a b = true) →
      (sortInsert le x l).Pairwise (fun a b => le a b = true)
  | [], _ => by simp [sortInsert]
  | y :: ys, h => by
    rw [List.pairwise_cons] at h
    unfold sortInsert
    by_cases hxy : le x y = true
    · rw [if_pos hxy]
      rw [List.pairwise_cons]
      refine ⟨?_, List.pairwise_cons.mpr h⟩
      intro z hz
      rcases List.mem_cons.mp hz with rfl | hz
      · exact hxy
      · exact htrans x y z hxy (h.1 z hz)
    · rw [if_neg hxy]
      have hyx : le y x = true := (htotal x y).resolve_left hxy
      rw [List.pairwise_cons]
      refine ⟨?_, sortInsert_sorted le htrans htotal x ys h.2⟩
      intro z hz
      have hz2 : z ∈ x :: ys := (sortInsert_perm le x ys).mem_iff.mp hz
      rcases List.mem_cons.mp hz2 with rfl | hz2
      · exact hyx
      · exact h.1 z hz2

theorem sortBy_sorted (le : α → α → Bool)
    (htrans : ∀ a b c, le a b = true → le b c = true → le a c = true)
    (htotal : ∀ a b, le a b = true ∨ le b a = true) :
    ∀ l : List α, (sortBy le l).Pairwise (fun a b => le a b = true)
  | [] => List.Pairwise.nil
  | x :: xs => by
    unfold sortBy
    exact sortInsert_sorted le htrans htotal x _ (sortBy_sorted le htrans htotal xs)

theorem sortBy_eq_of_perm (le : α → α → Bool)
    (htrans : ∀ a b c, le a b = true → le b c = true → le a c = true)
    (htotal : ∀ a b, le a b = true ∨ le b a = true)
    (hanti : ∀ a b, le a b = true → le b a = true → a = b)
    {l₁ l₂ : List α} (h : l₁.Perm l₂) : sortBy le l₁ = sortBy le l₂ := by
  haveI : IsAntisymm α (fun a b => le a b = true) := ⟨hanti⟩
  exact List.eq_of_perm_of_sorted
    ((sortBy_perm le l₁).trans (h.trans (sortBy_perm le l₂).symm))
    (sortBy_sorted le htrans htotal l₁) (sortBy_sorted le htrans htotal l₂)

theorem eq_of_mem_nodupkeys {l : List (String × String)}
    (hn : (l.map (fun e => e.1)).Nodup) {e e' : String × String}
    (he : e ∈ l) (he' : e' ∈ l) (hk : e.1 = e'.1) : e = e' := by
  induction l with
  | nil => cases he
  | cons x xs ih =>
    rw [List.map_cons, List.nodup_cons] at hn
    rcases List.mem_cons.mp he with rfl | he2
    · rcases List.mem_cons.mp he' with rfl | he'2
      · rfl
      · exact absurd (hk ▸ List.mem_map_of_mem (fun e => e.1) he'2) hn.1
    · rcases List.mem_cons.mp he' with rfl | he'2
      · exact absurd (hk ▸ List.mem_map_of_mem (fun e => e.1) he2) hn.1
      · exact ih hn.2 he2 he'2

theorem find?_key_eq_of_perm {l₁ l₂ : List (String × String)} (hp : l₁.Perm l₂)
    (hn : (l₁.map (fun e => e.1)).Nodup) (k : String) :
    l₁.find? (fun e => e.1 = k) = l₂.find? (fun e => e.1 = k) := by
  cases hf : l₁.find? (fun e => e.1 = k) with
  | none =>
    rw [List.find?_eq_none] at hf
    symm
    rw [List.find?_eq_none]
    intro e he
    exact hf e (hp.mem_iff.mpr he)
  | some e =>
    have he₁ : e ∈ l₁ := List.mem_of_find?_eq_some hf
    have hek : e.1 = k := by simpa using List.find?_some hf
    cases hf₂ : l₂.find? (fun e => e.1 = k) with
    | none =>
      rw [List.find?_eq_none] at hf₂
      exact absurd (by simpa using hf₂ e (hp.mem_iff.mp he₁)) (by simp [hek])
    | some e₂ =>
      have he₂ : e₂ ∈ l₁ := hp.mem_iff.mpr (List.mem_of_find?_eq_some hf₂)
      have he₂k : e₂.1 = k := by simpa using List.find?_some hf₂
      rw [eq_of_mem_nodupkeys hn he₁ he₂ (hek.trans he₂k.symm)]

theorem importMapString_perm {l₁ l₂ : List (String × String)} (hp : l₁.Perm l₂)
    (hn : (l₁.map (fun e => e.1)).Nodup) :
    importMapString l₁ = importMapString l₂ := by
  unfold importMapString
  have hkeys : sortBy strLe (l₁.map (fun e => e.1)) = sortBy strLe (l₂.map (fun e => e.1)) :=
    sortBy_eq_of_perm strLe (fun _ _ _ => strLe_trans) strLe_total
      (fun _ _ => strLe_antisymm) (hp.map (fun e => e.1))
  have hfind : ∀ k, l₁.find? (fun e => e.1 = k) = l₂.find? (fun e => e.1 = k) :=
    find?_key_eq_of_perm hp hn
  rw [hkeys]
  simp only [hfind]

/-- C6 counterexample: the claim states the matched plugins' checksums are
hashed in a canonical (sorted) order, making the hash independent of plugin
registration order.  Registering the same two checksummed plugins in the
two possible orders (`ctxPluginsPQ` vs `ctxPluginsQP`) feeds the hasher
different byte streams, and the resulting `sourceHash` differs. -/
theorem sourceHash_plugin_order_cex :
    sourceHashUpdates ctxPluginsPQ ("/x.ts") srcSample ≠
        sourceHashUpdates ctxPluginsQP ("/x.ts") srcSample ∧
      sourceHashOf ctxPluginsPQ ("/x.ts") srcSample ≠
        sourceHashOf ctxPluginsQP ("/x.ts") srcSample := by
  constructor
  · decide
  · decide

/-- C6 (amended): `sourceHash` is deterministic given identical source
text, import-map entries and matched plugin name/checksum updates — the
import-map keys are hashed in sorted order, so permuting the import map
(with its keys unique) never changes the hash — but the plugin checksums
are hashed in Set-insertion order (the matching loader's plugin first, then
matching transform plugins in registration order), not in a sorted order,
so plugin registration order can change the hash. -/
theorem sourceHash_importMap_canonical (ctx₁ ctx₂ : Ctx) (specifier : String)
    (src : ModuleSource) (hperm : ctx₁.importMap.Perm ctx₂.importMap)
    (hnodup : (ctx₁.importMap.map (fun e => e.1)).Nodup)
    (hplug : pluginChecksumUpdates ctx₁ specifier = pluginChecksumUpdates ctx₂ specifier)
    (hcss : ctx₁.cssConfigStr = ctx₂.cssConfigStr)
    (hsha : ctx₁.sha1 = ctx₂.sha1) :
    sourceHashOf ctx₁ specifier src = sourceHashOf ctx₂ specifier src := by
  unfold sourceHashOf sourceHashUpdates
  rw [importMapString_perm hperm hnodup, hplug, hcss, hsha]

/-- Witness for C6's amended theorem: two import maps that are permutations
of each other hash identically. -/
theorem sourceHash_importMap_canonical_witness :
    sourceHashOf { importMap := [("react", "https://esm.sh/react"), ("a", "b")] }
        ("/x.ts") srcSample =
      sourceHashOf { importMap := [("a", "b"), ("react", "https://esm.sh/react")] }
        ("/x.ts") srcSample := by
  exact sourceHash_importMap_canonical
    { importMap := [("react", "https://esm.sh/react"), ("a", "b")] }
    { importMap := [("a", "b"), ("react", "https://esm.sh/react")] }
    ("/x.ts") srcSample (by decide) (by decide) rfl rfl rfl

/-- C2 counterexample: the claim states the tracing set makes every module
be treated as the "changed module" at most once per propagation call.  The
recursive call in the source passes a fresh tracing set, so on the two-cycle
`/a.ts ↔ /b.ts` the propagation enters the guarded body with `/a.ts` as the
changed module twice: the processed log is `[/a.ts, /b.ts, /a.ts]`. -/
theorem cascade_processed_twice_cex :
    (applyCompilationSideEffect ctx0 5 stAB modA []).processed =
        ["/a.ts", "/b.ts", "/a.ts"] ∧
      ¬ (applyCompilationSideEffect ctx0 5 stAB modA []).processed.Nodup ∧
      (applyCompilationSideEffect ctx0 5 stAB modA []).ok = true := by
  refine ⟨by decide, by decide, by decide⟩

/-! ## Second-compilation lemmas -/

theorem transpileModule_zero (ctx : Ctx) (st : AlephState) (m : Module)
    (src : Option ModuleSource) (ig : Bool) (tr : List String) :
    transpileModule ctx 0 st m src ig tr = ⟨st, m, tr, false⟩ := rfl

theorem transpileModule_succ (ctx : Ctx) (f : Nat) :
    transpileModule ctx (f + 1) = transpileModuleBody ctx (transpileModule ctx f) := rfl

theorem applyCompilationSideEffect_zero (ctx : Ctx) (st : AlephState) (byMod : Module)
    (tr : List String) :
    applyCompilationSideEffect ctx 0 st byMod tr = ⟨st, [], [], false⟩ := rfl

theorem applyCompilationSideEffect_succ (ctx : Ctx) (f : Nat) :
    applyCompilationSideEffect ctx (f + 1) =
      applyCompilationSideEffectBody ctx (applyCompilationSideEffect ctx f) := rfl

theorem mapIfEq_of_not_mem {ms : List Module} {m : Module}
    (h : ∀ e ∈ ms, e.specifier ≠ m.specifier) :
    ms.map (fun e => if e.specifier = m.specifier then m else e) = ms := by
  induction ms with
  | nil => rfl
  | cons e es ih =>
    rw [List.map_cons, if_neg (h e (List.mem_cons_self e es)), ih]
    intro x hx
    exact h x (List.mem_cons_of_mem e hx)

theorem setModuleRegIfPresent_self {ms : List Module} {m : Module}
    (hn : (ms.map (fun x => x.specifier)).Nodup)
    (h : getModuleReg ms m.specifier = some m) :
    setModuleRegIfPresent ms m = ms := by
  unfold setModuleRegIfPresent
  unfold getModuleReg at h
  induction ms with
  | nil => simp at h
  | cons e es ih =>
    rw [List.map_cons, List.nodup_cons] at hn
    rw [List.find?_cons] at h
    by_cases he : e.specifier = m.specifier
    · have hem : e = m := by
        simp only [he, decide_True] at h
        exact Option.some.inj h
      rw [List.map_cons, if_pos he, hem]
      congr 1
      apply mapIfEq_of_not_mem
      intro x hx hxspec
      exact hn.1 (by
        rw [← hem] at hxspec
        rw [← hxspec]
        exact List.mem_map_of_mem (fun x => x.specifier) hx)
    · simp only [he, decide_False] at h
      rw [List.map_cons, if_neg he, ih hn.2 h]

theorem initModule_registered_hit (ctx : Ctx) (st : AlephState) (spec data : String)
    (m : Module) (h? : Option Bool)
    (hres : runResolvers ctx spec = (spec, false, data))
    (hreg : getModuleReg st.modules spec = some m)
    (hhttp : isTruthy m.httpExternal = false) :
    initModule ctx st spec { httpExternal := h? } = ⟨st, m, none⟩ := by
  unfold initModule
  rw [show ({ httpExternal := h? } : CompileOptions).source = none from rfl]
  simp only [Option.isNone_none, if_true, hres]
  rw [hreg]
  simp [hhttp]

theorem transpileModule_clean (ctx : Ctx) (st : AlephState) (hclean : CleanState ctx st) :
    ∀ fuel (mod : Module) (tracing : List String),
      getModuleReg st.modules mod.specifier = some mod →
      (transpileModule ctx fuel st mod none false tracing).st = st ∧
        (transpileModule ctx fuel st mod none false tracing).module = mod := by
  obtain ⟨hnodup, hmods⟩ := hclean
  intro fuel
  induction fuel with
  | zero =>
    intro mod tracing _
    rw [transpileModule_zero]
    exact ⟨rfl, rfl⟩
  | succ f ih =>
    -- one dependency's compile leaves the state unchanged and returns the
    -- registered dependency module
    have hdc : ∀ (mod : Module) (dep : DependencyDescriptor) (tracing : List String)
        (dm : Module),
        getModuleReg st.modules dep.specifier = some dm →
        runResolvers ctx dep.specifier = (dep.specifier, false, "") →
        (depCompile ctx (transpileModule ctx f) st mod dep tracing).1 = st ∧
          (depCompile ctx (transpileModule ctx f) st mod dep tracing).2.1 = dm := by
      intro mod dep tracing dm hdm hresdep
      obtain ⟨hdmem, hdmspec⟩ := getModuleReg_mem hdm
      obtain ⟨hext, hhttp, _⟩ := hmods dm hdmem
      unfold depCompile
      rw [initModule_registered_hit ctx st dep.specifier ("") dm mod.httpExternal
        hresdep hdm hhttp]
      have hdm2 : getModuleReg st.modules dm.specifier = some dm := by
        rw [hdmspec]
        exact hdm
      have hih := ih dm tracing hdm2
      simp only [hext, Bool.not_false, if_true]
      exact ⟨hih.1, hih.2⟩
    have hdc2 : ∀ (mod : Module) (dep : DependencyDescriptor) (tracing : List String)
        (dm : Module),
        getModuleReg st.modules dep.specifier = some dm →
        runResolvers ctx dep.specifier = (dep.specifier, false, "") →
        ∃ tr2 ok2, depCompile ctx (transpileModule ctx f) st mod dep tracing =
          (st, dm, tr2, ok2) := by
      intro mod dep tracing dm hdm hresdep
      have h := hdc mod dep tracing dm hdm hresdep
      refine ⟨(depCompile ctx (transpileModule ctx f) st mod dep tracing).2.2.1,
        (depCompile ctx (transpileModule ctx f) st mod dep tracing).2.2.2, ?_⟩
      have h1 := h.1
      have h2 := h.2
      exact Prod.ext h1 (Prod.ext h2 rfl)
    have hfold : ∀ (deps : List DependencyDescriptor) (mod : Module),
        getModuleReg st.modules mod.specifier = some mod →
        (∀ d ∈ deps, d ∈ mod.deps) →
        ∀ (tracing : List String) (ok : Bool),
          (depsFold ctx (transpileModule ctx f) deps st mod false false tracing ok).1 = st ∧
          (depsFold ctx (transpileModule ctx f) deps st mod false false tracing ok).2.1 = mod ∧
          (depsFold ctx (transpileModule ctx f) deps st mod false false tracing ok).2.2.1 = false := by
      intro deps
      induction deps with
      | nil =>
        intro mod hreg hsub tracing ok
        exact ⟨rfl, rfl, rfl⟩
      | cons dep rest ihd =>
        intro mod hreg hsub tracing ok
        obtain ⟨hmodmem, _⟩ := getModuleReg_mem hreg
        obtain ⟨hvirt, hresdep, hissome, hsite⟩ :=
          (hmods mod hmodmem).2.2 dep (hsub dep (List.mem_cons_self dep rest))
        obtain ⟨dm, hdm⟩ := Option.isSome_iff_exists.mp hissome
        obtain ⟨tr2, ok2, hdceq⟩ := hdc2 mod dep tracing dm hdm hresdep
        have hsub2 : ∀ d ∈ rest, d ∈ mod.deps :=
          fun d hd => hsub d (List.mem_cons_of_mem dep hd)
        unfold depsFold
        rw [hvirt]
        simp only [Bool.false_or, Bool.or_false, if_false, Bool.false_eq_true]
        rw [hdceq]
        cases hloc : dep.hashLoc with
        | none =>
          exact ihd mod hreg hsub2 tr2 (ok && ok2)
        | some loc =>
          unfold cleanDepSite at hsite
          rw [hloc] at hsite
          cases hbuf : mod.jsBuffer with
          | none =>
            rw [hbuf] at hsite
            simp at hsite
          | some buf =>
            rw [hbuf, hdm] at hsite
            have hsite2 : sliceList buf loc (loc + 6) =
                encodeStr ((computeModuleHash ctx st dm).take 6) := by
              simpa using hsite
            have hrep : replaceDepHash st.disk mod loc (computeModuleHash ctx st dm) =
                (mod, false) := by
              unfold replaceDepHash getModuleJS
              rw [hbuf]
              dsimp only
              rw [if_neg (by
                rw [hsite2]
                exact fun h => h rfl)]
            dsimp only
            rw [hrep]
            dsimp only
            rw [setModuleRegIfPresent_self hnodup hreg]
            exact ihd mod hreg hsub2 tr2 (ok && ok2)
    have htd : ∀ (mod : Module) (tracing : List String),
        getModuleReg st.modules mod.specifier = some mod →
        (transpileDeps ctx (transpileModule ctx f) st mod false tracing).st = st ∧
          (transpileDeps ctx (transpileModule ctx f) st mod false tracing).module = mod := by
      intro mod tracing hreg
      unfold transpileDeps
      by_cases hdeps : mod.deps = []
      · rw [if_pos hdeps]
        exact ⟨rfl, rfl⟩
      · rw [if_neg hdeps]
        obtain ⟨h1, h2, h3⟩ := hfold mod.deps mod hreg (fun d hd => hd) tracing true
        refine ⟨?_, ?_⟩ <;> simp only [h1, h2, h3, Bool.false_eq_true, if_false]
    intro mod tracing hreg
    rw [transpileModule_succ]
    unfold transpileModuleBody
    by_cases htr : mod.specifier ∈ tracing
    · rw [if_pos htr]
      exact ⟨rfl, rfl⟩
    · rw [if_neg htr]
      exact htd mod (mod.specifier :: tracing) hreg

/-- C3: compiling an already-registered specifier a second time with
unchanged sources, configuration and checksums yields identical
`sourceHash` and identical compiled bytes and invokes the transform
collaborator zero times: over a clean state the whole second `compile` call
is the identity on the state (first conjunct; `#initModule` returns the
registered module with `source = null`), and on the forced-reload path
(http-external flag mismatch) `#initModule` reloads the source, finds the
freshly computed hash equal to the restored one, and again returns
`source = null` without transforming (second conjunct). -/
theorem compile_second_time_idempotent (ctx : Ctx) (fuel : Nat) (st : AlephState)
    (specifier data : String) (mod : Module)
    (hclean : CleanState ctx st)
    (hreg : getModuleReg st.modules specifier = some mod)
    (hres : runResolvers ctx specifier = (specifier, false, data)) :
    ((compile ctx fuel st specifier {}).st = st ∧
      (compile ctx fuel st specifier {}).module = mod ∧
      (compile ctx fuel st specifier {}).st.transformLog = st.transformLog) ∧
    (∀ (st₂ : AlephState) (spec₂ data₂ : String) (mod₂ : Module) (meta₂ : MetaJson)
        (src₂ : ModuleSource),
      getModuleReg st₂.modules spec₂ = some mod₂ →
      isTruthy mod₂.httpExternal = true →
      runResolvers ctx spec₂ = (spec₂, false, data₂) →
      st₂.disk.getMeta (jsFileOf spec₂) = some (some meta₂) →
      metaShapeOk meta₂ spec₂ = true →
      isLikelyHttpURL spec₂ = false →
      resolveModuleSourceE ctx spec₂ data₂ = .ok src₂ →
      meta₂.sourceHash = some (sourceHashOf ctx spec₂ src₂) →
      (initModule ctx st₂ spec₂ {}).source = none ∧
        (initModule ctx st₂ spec₂ {}).module.sourceHash = sourceHashOf ctx spec₂ src₂ ∧
        (initModule ctx st₂ spec₂ {}).st.transformLog = st₂.transformLog) := by
  constructor
  · obtain ⟨hmem, _⟩ := getModuleReg_mem hreg
    obtain ⟨hext, hhttp, _⟩ := hclean.2 mod hmem
    have hinit : initModule ctx st specifier {} = ⟨st, mod, none⟩ :=
      initModule_registered_hit ctx st specifier data mod none hres hreg hhttp
    have hreg2 : getModuleReg st.modules mod.specifier = some mod := by
      rw [(getModuleReg_mem hreg).2]
      exact hreg
    have htm := transpileModule_clean ctx st hclean fuel mod [] hreg2
    unfold compile
    rw [hinit]
    simp only [hext, Bool.not_false, if_true]
    exact ⟨htm.1, htm.2, by rw [htm.1]⟩
  · intro st₂ spec₂ data₂ mod₂ meta₂ src₂ hreg₂ hhttp₂ hres₂ hmeta₂ hshape₂
      hlocal₂ hload₂ hms₂
    have h1 : initModule ctx st₂ spec₂ {} =
        initModuleLoad ctx st₂ spec₂ {} data₂ false := by
      unfold initModule
      rw [show ({} : CompileOptions).source = none from rfl]
      simp only [Option.isNone_none, if_true, hres₂]
      rw [hreg₂]
      dsimp only
      rw [hhttp₂]
      simp [isTruthy]
    rw [h1]
    unfold initModuleLoad
    dsimp only
    rw [metaAction_merge (show _ = some (some meta₂) from hmeta₂) hshape₂]
    dsimp only
    rw [hlocal₂]
    unfold resolveModuleSource
    simp only [hload₂, Bool.false_and, Bool.not_false, Bool.true_or,
      Bool.false_eq_true, if_false, if_true]
    have hmerge : ∀ m0 : Module, (mergeMeta m0 meta₂).sourceHash =
        sourceHashOf ctx spec₂ src₂ := by
      intro m0
      unfold mergeMeta
      rw [hms₂]
      rfl
    rw [if_neg (by
      rw [hmerge]
      exact fun h => h rfl)]
    by_cases hrel : (ctx.reload && !(st₂.initSession.contains spec₂)) = true
    · simp only [hrel, if_true]
      exact ⟨by trivial, by exact hmerge _, by trivial⟩
    · simp only [hrel, if_false]
      exact ⟨by trivial, by exact hmerge _, by trivial⟩

/-- Witness for C3 over the clean two-module state. -/
theorem compile_second_time_idempotent_witness :
    (compile ctx0 3 stClean ("/a.ts")).st = stClean ∧
      (compile ctx0 3 stClean ("/a.ts")).st.transformLog = stClean.transformLog := by
  have h := compile_second_time_idempotent ctx0 3 stClean ("/a.ts") ("") modCleanA
    (by decide) (by decide) rfl
  exact ⟨h.1.1, h.1.2.2⟩

/-! ## Transform-log lemmas -/

theorem LogSpec.refl_of_sub {l tr₀ tr₁ : List String} (h : ∀ s ∈ tr₀, s ∈ tr₁) :
    LogSpec l l tr₀ tr₁ :=
  ⟨h, [], by simp, List.nodup_nil, by simp⟩

theorem LogSpec.log_same {l tr : List String} : LogSpec l l tr tr :=
  LogSpec.refl_of_sub (fun _ hs => hs)

theorem LogSpec.log_trans {l₀ l₁ l₂ tr₀ tr₁ tr₂ : List String}
    (h₁ : LogSpec l₀ l₁ tr₀ tr₁) (h₂ : LogSpec l₁ l₂ tr₁ tr₂) :
    LogSpec l₀ l₂ tr₀ tr₂ := by
  obtain ⟨hsub₁, Δ₁, he₁, hn₁, hm₁⟩ := h₁
  obtain ⟨hsub₂, Δ₂, he₂, hn₂, hm₂⟩ := h₂
  refine ⟨fun s hs => hsub₂ s (hsub₁ s hs), Δ₁ ++ Δ₂, by rw [he₂, he₁, List.append_assoc], ?_, ?_⟩
  · refine hn₁.append hn₂ ?_
    intro a ha₁ ha₂
    exact (hm₂ a ha₂).1 ((hm₁ a ha₁).2)
  · intro s hs
    rcases List.mem_append.mp hs with hs₁ | hs₂
    · exact ⟨(hm₁ s hs₁).1, hsub₂ s ((hm₁ s hs₁).2)⟩
    · exact ⟨fun hmem => (hm₂ s hs₂).1 (hsub₁ s hmem), (hm₂ s hs₂).2⟩

theorem LogSpec.push {l : List String} {spec : String} {tr : List String}
    (h : spec ∉ tr) : LogSpec l (l ++ [spec]) tr (spec :: tr) := by
  refine ⟨fun s hs => List.mem_cons_of_mem spec hs, [spec], rfl, List.nodup_singleton spec, ?_⟩
  intro s hs
  rw [List.mem_singleton] at hs
  subst hs
  exact ⟨h, List.mem_cons_self s tr⟩

theorem cacheModule_transformLog (st : AlephState) (m : Module) :
    (cacheModule st m).transformLog = st.transformLog := by
  unfold cacheModule
  cases m.jsBuffer <;> rfl

theorem resolveModuleSource_transformLog (ctx : Ctx) (st : AlephState)
    (spec data : String) :
    (resolveModuleSource ctx st spec data).1.transformLog = st.transformLog := rfl

set_option maxHeartbeats 2000000 in
theorem initModule_transformLog (ctx : Ctx) (st : AlephState) (spec : String)
    (opts : CompileOptions) :
    (initModule ctx st spec opts).st.transformLog = st.transformLog := by
  unfold initModule initModuleLoad resolveModuleSource
  repeat'
    first
      | rfl
      | split
      | dsimp only

set_option maxHeartbeats 2000000 in
/-- The transform log grows by a duplicate-free batch over any transpile
pass: the per-call tracing set admits each specifier once, the transform
step is the only log writer, and it fires only on specifiers absent from
the incoming tracing set (which the batch joins). -/
theorem transpileModule_log (ctx : Ctx) :
    ∀ (fuel : Nat) (st : AlephState) (mod : Module) (source : Option ModuleSource)
      (ig : Bool) (tracing : List String),
      LogSpec st.transformLog
        (transpileModule ctx fuel st mod source ig tracing).st.transformLog
        tracing
        (transpileModule ctx fuel st mod source ig tracing).tracing := by
  intro fuel
  induction fuel with
  | zero =>
    intro st mod source ig tracing
    exact LogSpec.log_same
  | succ f ih =>
    have hdc : ∀ (st : AlephState) (mod : Module) (dep : DependencyDescriptor)
        (tracing : List String),
        LogSpec st.transformLog
          (depCompile ctx (transpileModule ctx f) st mod dep tracing).1.transformLog
          tracing
          (depCompile ctx (transpileModule ctx f) st mod dep tracing).2.2.1 := by
      intro st mod dep tracing
      unfold depCompile
      dsimp only
      cases hext : (initModule ctx st dep.specifier
          { httpExternal := mod.httpExternal }).module.external with
      | true =>
        simp only [Bool.not_true, Bool.false_eq_true, if_false]
        rw [initModule_transformLog]
        exact LogSpec.log_same
      | false =>
        simp only [Bool.not_false, if_true]
        have h := ih (initModule ctx st dep.specifier
            { httpExternal := mod.httpExternal }).st
          (initModule ctx st dep.specifier { httpExternal := mod.httpExternal }).module
          (initModule ctx st dep.specifier { httpExternal := mod.httpExternal }).source
          false tracing
        rw [initModule_transformLog] at h
        exact h
    have hfold : ∀ (deps : List DependencyDescriptor) (st : AlephState) (mod : Module)
        (ig fsync : Bool) (tracing : List String) (ok : Bool),
        LogSpec st.transformLog
          (depsFold ctx (transpileModule ctx f) deps st mod ig fsync tracing ok).1.transformLog
          tracing
          (depsFold ctx (transpileModule ctx f) deps st mod ig fsync tracing
            ok).2.2.2.1 := by
      intro deps
      induction deps with
      | nil =>
        intro st mod ig fsync tracing ok
        exact LogSpec.log_same
      | cons dep rest ihd =>
        intro st mod ig fsync tracing ok
        unfold depsFold
        by_cases hig : (ig || dep.virtual) = true
        · rw [if_pos hig]
          cases hget : getModule st dep.specifier with
          | some dm =>
            dsimp only
            cases hloc : dep.hashLoc with
            | none =>
              exact LogSpec.log_trans LogSpec.log_same (ihd st mod ig fsync tracing (ok && true))
            | some loc =>
              rcases hR : replaceDepHash st.disk mod loc
                (computeModuleHash ctx st dm) with ⟨m2, ch⟩
              dsimp only
              rw [hR]
              exact LogSpec.log_trans LogSpec.log_same
                (ihd { st with modules := setModuleRegIfPresent st.modules m2 } m2
                  ig (fsync || ch) tracing (ok && true))
          | none =>
            dsimp only
            by_cases hv : dep.virtual = true
            · rw [if_pos hv]
              have hstep : LogSpec st.transformLog
                  (initModule ctx st dep.specifier { virtual := true }).st.transformLog
                  tracing tracing := by
                rw [initModule_transformLog]
                exact LogSpec.log_same
              dsimp only
              cases hloc : dep.hashLoc with
              | none =>
                exact LogSpec.log_trans hstep
                  (ihd (initModule ctx st dep.specifier { virtual := true }).st
                    mod ig fsync tracing (ok && true))
              | some loc =>
                rcases hR : replaceDepHash
                  (initModule ctx st dep.specifier { virtual := true }).st.disk mod loc
                  (computeModuleHash ctx
                    (initModule ctx st dep.specifier { virtual := true }).st
                    (initModule ctx st dep.specifier { virtual := true }).module)
                  with ⟨m2, ch⟩
                dsimp only
                rw [hR]
                exact LogSpec.log_trans hstep
                  (ihd { (initModule ctx st dep.specifier { virtual := true }).st with
                      modules := setModuleRegIfPresent
                        (initModule ctx st dep.specifier { virtual := true }).st.modules
                        m2 }
                    m2 ig (fsync || ch) tracing (ok && true))
            · rw [if_neg hv]
              rcases hDeq : depCompile ctx (transpileModule ctx f) st mod dep tracing
                with ⟨stD, dmD, trD, okD⟩
              have hstep : LogSpec st.transformLog stD.transformLog tracing trD := by
                have h := hdc st mod dep tracing
                rw [hDeq] at h
                exact h
              dsimp only
              cases hloc : dep.hashLoc with
              | none =>
                exact LogSpec.log_trans hstep (ihd stD mod ig fsync trD (ok && okD))
              | some loc =>
                rcases hR : replaceDepHash stD.disk mod loc
                  (computeModuleHash ctx stD dmD) with ⟨m2, ch⟩
                dsimp only
                rw [hR]
                exact LogSpec.log_trans hstep
                  (ihd { stD with modules := setModuleRegIfPresent stD.modules m2 }
                    m2 ig (fsync || ch) trD (ok && okD))
        · rw [if_neg hig]
          rcases hDeq : depCompile ctx (transpileModule ctx f) st mod dep tracing
            with ⟨stD, dmD, trD, okD⟩
          have hstep : LogSpec st.transformLog stD.transformLog tracing trD := by
            have h := hdc st mod dep tracing
            rw [hDeq] at h
            exact h
          dsimp only
          cases hloc : dep.hashLoc with
          | none =>
            exact LogSpec.log_trans hstep (ihd stD mod ig fsync trD (ok && okD))
          | some loc =>
            rcases hR : replaceDepHash stD.disk mod loc
              (computeModuleHash ctx stD dmD) with ⟨m2, ch⟩
            dsimp only
            rw [hR]
            exact LogSpec.log_trans hstep
              (ihd { stD with modules := setModuleRegIfPresent stD.modules m2 }
                m2 ig (fsync || ch) trD (ok && okD))
    have htd : ∀ (st : AlephState) (mod : Module) (ig : Bool) (tracing : List String),
        LogSpec st.transformLog
          (transpileDeps ctx (transpileModule ctx f) st mod ig tracing).st.transformLog
          tracing
          (transpileDeps ctx (transpileModule ctx f) st mod ig tracing).tracing := by
      intro st mod ig tracing
      unfold transpileDeps
      by_cases hdeps : mod.deps = []
      · rw [if_pos hdeps]
        exact LogSpec.log_same
      · rw [if_neg hdeps]
        have h := hfold mod.deps st mod ig false tracing true
        by_cases hs : (depsFold ctx (transpileModule ctx f) mod.deps st mod ig false
            tracing true).2.2.1 = true
        · rw [if_pos hs]
          dsimp only
          rw [cacheModule_transformLog]
          exact h
        · rw [if_neg hs]
          exact h
    intro st mod source ig tracing
    rw [transpileModule_succ]
    unfold transpileModuleBody
    by_cases htr : mod.specifier ∈ tracing
    · rw [if_pos htr]
      exact LogSpec.log_same
    · rw [if_neg htr]
      cases source with
      | none =>
        exact LogSpec.log_trans
          (LogSpec.refl_of_sub (fun s hs => List.mem_cons_of_mem _ hs))
          (htd st mod ig (mod.specifier :: tracing))
      | some src =>
        dsimp only
        by_cases hunk : src.type = SourceType.unknown
        · rw [if_pos hunk]
          exact LogSpec.refl_of_sub (fun s hs => List.mem_cons_of_mem _ hs)
        · rw [if_neg hunk]
          by_cases hcss : src.type = SourceType.css
          · rw [if_pos hcss]
            dsimp only
            exact LogSpec.log_trans (LogSpec.push htr) (htd _ _ _ _)
          · rw [if_neg hcss]
            dsimp only
            exact LogSpec.log_trans (LogSpec.push htr) (htd _ _ _ _)

/-- C5: within one top-level compilation pass every specifier is
transformed at most once.  First conjunct: over any transpile call with a
fresh tracing set the transform log grows by a duplicate-free batch of
specifiers, so no specifier is transformed twice in the pass.  Second
conjunct: `#transpileModule` returns immediately (state untouched,
`ok = true`) when the module's specifier is already in the per-call
tracing set.  Third conjunct: on the two-module import cycle
`/a.ts ⇄ /b.ts` the pass terminates successfully with each of the two
modules transformed exactly once, in order. -/
theorem transpile_transform_once (ctx : Ctx) :
    (∀ (fuel : Nat) (st : AlephState) (mod : Module) (source : Option ModuleSource)
        (ig : Bool),
      ∃ Δ : List String,
        (transpileModule ctx fuel st mod source ig []).st.transformLog =
          st.transformLog ++ Δ ∧ Δ.Nodup) ∧
    (∀ (fuel : Nat) (st : AlephState) (mod : Module) (source : Option ModuleSource)
        (ig : Bool) (tracing : List String),
      mod.specifier ∈ tracing →
        transpileModule ctx (fuel + 1) st mod source ig tracing =
          ⟨st, mod, tracing, true⟩) ∧
    ((compile ctxCycle 5 {} ("/a.ts")).st.transformLog = ["/a.ts", "/b.ts"] ∧
      (compile ctxCycle 5 {} ("/a.ts")).ok = true) := by
  refine ⟨?_, ?_, ?_, ?_⟩
  · intro fuel st mod source ig
    obtain ⟨-, Δ, he, hn, -⟩ := transpileModule_log ctx fuel st mod source ig []
    exact ⟨Δ, he, hn⟩
  · intro fuel st mod source ig tracing h
    rw [transpileModule_succ]
    unfold transpileModuleBody
    rw [if_pos h]
  · decide
  · decide

/-- Witness for C5: the tracing-set guard fires on a concrete call whose
module is already traced. -/
theorem transpile_transform_once_witness :
    transpileModule ctx0 3 stAB modA none false ["/a.ts"] =
      ⟨stAB, modA, ["/a.ts"], true⟩ :=
  (transpile_transform_once ctx0).2.1 2 stAB modA none false ["/a.ts"] (by decide)

/-! ## Cascade frame lemmas -/

theorem ModFrame.mod_same (m : Module) : ModFrame m m :=
  ⟨rfl, rfl, rfl, rfl, rfl, rfl, rfl, rfl, Or.inl ⟨rfl, rfl⟩⟩

theorem ModFrame.mod_trans {a b c : Module} (h₁ : ModFrame a b) (h₂ : ModFrame b c) :
    ModFrame a c := by
  obtain ⟨hs₁, hh₁, hd₁, hf₁, he₁, hx₁, hy₁, hz₁, hb₁⟩ := h₁
  obtain ⟨hs₂, hh₂, hd₂, hf₂, he₂, hx₂, hy₂, hz₂, hb₂⟩ := h₂
  refine ⟨hs₂.trans hs₁, hh₂.trans hh₁, hd₂.trans hd₁, hf₂.trans hf₁,
    he₂.trans he₁, hx₂.trans hx₁, hy₂.trans hy₁, hz₂.trans hz₁, ?_⟩
  rcases hb₁ with ⟨hbe₁, hce₁⟩ | ⟨buf, buf', hba, hbb, hlen₁, hout₁, hcr₁⟩
  · rcases hb₂ with ⟨hbe₂, hce₂⟩ | ⟨buf₂, buf₂', hbb₂, hbc, hlen₂, hout₂, hcr₂⟩
    · exact Or.inl ⟨hbe₂.trans hbe₁, hce₂.trans hce₁⟩
    · refine Or.inr ⟨buf₂, buf₂', hbe₁.symm.trans hbb₂, hbc, hlen₂, ?_, hcr₂⟩
      intro i hi
      exact hout₂ i (by rw [hd₁]; exact hi)
  · rcases hb₂ with ⟨hbe₂, hce₂⟩ | ⟨buf₂, buf₂', hbb₂, hbc, hlen₂, hout₂, hcr₂⟩
    · exact Or.inr ⟨buf, buf', hba, hbe₂.trans hbb, hlen₁, hout₁, hce₂.trans hcr₁⟩
    · have hb2 : buf₂ = buf' := by
        rw [hbb] at hbb₂
        exact (Option.some.inj hbb₂).symm
      subst hb2
      refine Or.inr ⟨buf, buf₂', hba, hbc, hlen₂.trans hlen₁, ?_, hcr₂⟩
      intro i hi
      rw [hout₂ i (by rw [hd₁]; exact hi)]
      exact hout₁ i hi

theorem forall₂_modframe_trans : ∀ {l₁ l₂ l₃ : List Module},
    List.Forall₂ ModFrame l₁ l₂ → List.Forall₂ ModFrame l₂ l₃ →
    List.Forall₂ ModFrame l₁ l₃ := by
  intro l₁ l₂ l₃ h₁
  induction h₁ generalizing l₃ with
  | nil =>
    intro h₂
    cases h₂
    exact List.Forall₂.nil
  | cons hab h ih =>
    intro h₂
    cases h₂ with
    | cons hbc h' => exact List.Forall₂.cons (ModFrame.mod_trans hab hbc) (ih h')

theorem forall₂_modframe_spec : ∀ {l₁ l₂ : List Module},
    List.Forall₂ ModFrame l₁ l₂ →
    l₂.map (fun m => m.specifier) = l₁.map (fun m => m.specifier) := by
  intro l₁ l₂ h
  induction h with
  | nil => rfl
  | cons hab h ih =>
    rw [List.map_cons, List.map_cons, ih, hab.1]

theorem forall₂_modframe_mem : ∀ {l₁ l₂ : List Module},
    List.Forall₂ ModFrame l₁ l₂ → ∀ b ∈ l₂, ∃ a ∈ l₁, ModFrame a b := by
  intro l₁ l₂ h
  induction h with
  | nil =>
    intro b hb
    cases hb
  | cons hab h ih =>
    intro b hb
    rcases List.mem_cons.mp hb with rfl | hb2
    · exact ⟨_, List.mem_cons_self _ _, hab⟩
    · obtain ⟨a, ha, haf⟩ := ih b hb2
      exact ⟨a, List.mem_cons_of_mem _ ha, haf⟩

theorem StFrame.rfl_st (st : AlephState) : StFrame st st :=
  ⟨List.forall₂_same.mpr (fun m _ => ModFrame.mod_same m), rfl, rfl⟩

theorem StFrame.st_trans {s₁ s₂ s₃ : AlephState} (h₁ : StFrame s₁ s₂)
    (h₂ : StFrame s₂ s₃) : StFrame s₁ s₃ :=
  ⟨forall₂_modframe_trans h₁.1 h₂.1, h₂.2.1.trans h₁.2.1, h₂.2.2.trans h₁.2.2⟩

theorem StFrame.nodup {st st' : AlephState} (h : StFrame st st')
    (hn : (st.modules.map (fun m => m.specifier)).Nodup) :
    (st'.modules.map (fun m => m.specifier)).Nodup := by
  rw [forall₂_modframe_spec h.1]
  exact hn

theorem StFrame.allbuf {st st' : AlephState} (h : StFrame st st')
    (hb : ∀ m ∈ st.modules, m.jsBuffer.isSome = true) :
    ∀ m ∈ st'.modules, m.jsBuffer.isSome = true := by
  intro m' hm'
  obtain ⟨m, hm, hmf⟩ := forall₂_modframe_mem h.1 m' hm'
  rcases hmf.2.2.2.2.2.2.2.2 with ⟨hbe, -⟩ | ⟨buf, buf', -, hbb, -⟩
  · rw [hbe]
    exact hb m hm
  · rw [hbb]
    rfl

theorem copyBytes_length (src dst : List Nat) (off : Nat) :
    (copyBytes src dst off).length = dst.length := by
  unfold copyBytes
  simp only [List.length_append, List.length_take, List.length_drop]
  omega

theorem copyBytes_get?_outside (src dst : List Nat) (off i : Nat)
    (h : i < off ∨ off + src.length ≤ i) :
    (copyBytes src dst off).get? i = dst.get? i := by
  by_cases hiL : i < dst.length
  · rcases h with hlt | hge
    · unfold copyBytes
      rw [List.append_assoc,
        List.get?_append (by rw [List.length_take]; exact lt_min hlt hiL),
        List.get?_take hlt]
    · have hoff : off ≤ dst.length := by omega
      have hsrc : src.length ≤ dst.length - off := by omega
      unfold copyBytes
      rw [List.append_assoc,
        List.get?_append_right
          (by rw [List.length_take]; exact le_trans (min_le_left _ _) (by omega)),
        List.length_take, Nat.min_eq_left hoff,
        List.get?_append_right
          (by rw [List.length_take]; exact le_trans (min_le_right _ _) (by omega)),
        List.length_take, Nat.min_eq_right hsrc, List.get?_drop]
      congr 1
      omega
  · rw [List.get?_eq_none.mpr (le_of_not_lt hiL),
      List.get?_eq_none.mpr (by rw [copyBytes_length]; exact le_of_not_lt hiL)]

theorem cacheModule_modules (st : AlephState) (m : Module) :
    (cacheModule st m).modules = st.modules := by
  unfold cacheModule
  cases m.jsBuffer <;> rfl

theorem cacheModule_appModule (st : AlephState) (m : Module) :
    (cacheModule st m).appModule = st.appModule := by
  unfold cacheModule
  cases m.jsBuffer <;> rfl

theorem eq_of_mem_nodup_spec {ms : List Module}
    (hn : (ms.map (fun m => m.specifier)).Nodup) {e e' : Module}
    (he : e ∈ ms) (he' : e' ∈ ms) (hk : e.specifier = e'.specifier) : e = e' := by
  induction ms with
  | nil => cases he
  | cons x xs ih =>
    rw [List.map_cons, List.nodup_cons] at hn
    rcases List.mem_cons.mp he with rfl | he2
    · rcases List.mem_cons.mp he' with rfl | he'2
      · rfl
      · exact absurd (hk ▸ List.mem_map_of_mem (fun m => m.specifier) he'2) hn.1
    · rcases List.mem_cons.mp he' with rfl | he'2
      · exact absurd (hk ▸ List.mem_map_of_mem (fun m => m.specifier) he2) hn.1
      · exact ih hn.2 he2 he'2

theorem encodeStr_take6_length (hash : String) :
    (encodeStr (hash.take 6)).length ≤ 6 := by
  unfold encodeStr
  rw [List.length_map, String.data_take]
  exact List.length_take_le _ _

theorem replaceDepHash_frame {m : Module} {buf : List Nat} (disk : Disk)
    (loc : Nat) (hash : String) (hbuf : m.jsBuffer = some buf)
    (hsite : ∃ d ∈ m.deps, d.hashLoc = some loc) :
    ModFrame m (replaceDepHash disk m loc hash).1 := by
  unfold replaceDepHash getModuleJS
  rw [hbuf]
  dsimp only
  by_cases hne : encodeStr (hash.take 6) ≠ sliceList buf loc (loc + 6)
  · rw [if_pos hne]
    refine ⟨rfl, rfl, rfl, rfl, rfl, rfl, rfl, rfl, Or.inr ⟨buf,
      copyBytes (encodeStr (hash.take 6)) buf loc, hbuf, rfl,
      copyBytes_length _ _ _, ?_, rfl⟩⟩
    intro i hi
    apply copyBytes_get?_outside
    obtain ⟨d, hd, hdl⟩ := hsite
    have hwin : (decide (loc ≤ i) && decide (i < loc + 6)) = false := by
      by_contra hcon
      rw [Bool.not_eq_false] at hcon
      have hsa : siteAt m.deps i = true := by
        unfold siteAt
        rw [List.any_eq_true]
        refine ⟨d, hd, ?_⟩
        rw [hdl]
        exact hcon
      rw [hi] at hsa
      exact Bool.false_ne_true hsa
    have h6 := encodeStr_take6_length hash
    rcases Nat.lt_or_ge i loc with hlt | hge2
    · exact Or.inl hlt
    · right
      have hd6 : ¬ (i < loc + 6) := by
        intro hcon
        rw [decide_eq_true hge2, decide_eq_true hcon] at hwin
        simp at hwin
      omega
  · rw [if_neg hne]
    exact ModFrame.mod_same m

theorem setModuleReg_frame {ms : List Module} {mod mod' : Module} {spec : String}
    (hn : (ms.map (fun m => m.specifier)).Nodup)
    (hreg : getModuleReg ms spec = some mod)
    (hmf : ModFrame mod mod') :
    List.Forall₂ ModFrame ms (setModuleReg ms mod') := by
  obtain ⟨hmem, hspec⟩ := getModuleReg_mem hreg
  have hany : ms.any (fun e => e.specifier = mod'.specifier) = true := by
    rw [List.any_eq_true]
    exact ⟨mod, hmem, decide_eq_true hmf.1.symm⟩
  unfold setModuleReg
  rw [if_pos hany, List.forall₂_map_right_iff, List.forall₂_same]
  intro e he
  by_cases hespec : e.specifier = mod'.specifier
  · have he2 : e = mod := eq_of_mem_nodup_spec hn he hmem (by rw [hespec, hmf.1])
    rw [if_pos hespec, he2]
    exact hmf
  · rw [if_neg hespec]
    exact ModFrame.mod_same e

theorem cascadeDeps_frame (ctx : Ctx) (spec : String) (byMod : Module) :
    ∀ (deps : List DependencyDescriptor) (st : AlephState) (memo : Option String)
      (fsync : Bool),
      (st.modules.map (fun m => m.specifier)).Nodup →
      (∀ m ∈ st.modules, m.jsBuffer.isSome = true) →
      (∀ d ∈ deps, ∀ m, getModuleReg st.modules spec = some m → d ∈ m.deps) →
      StFrame st (cascadeDeps ctx spec byMod deps st memo fsync).1 := by
  intro deps
  induction deps with
  | nil =>
    intro st memo fsync _ _ _
    exact StFrame.rfl_st st
  | cons dep rest ihd =>
    intro st memo fsync hn hb hd
    unfold cascadeDeps
    cases hloc : dep.hashLoc with
    | none =>
      exact ihd st memo fsync hn hb (fun d hdm => hd d (List.mem_cons_of_mem _ hdm))
    | some loc =>
      dsimp only
      by_cases hbspec : dep.specifier = byMod.specifier
      · rw [if_pos hbspec]
        cases hreg : getModuleReg st.modules spec with
        | none =>
          dsimp only
          exact ihd st _ fsync hn hb (fun d hdm => hd d (List.mem_cons_of_mem _ hdm))
        | some mod =>
          dsimp only
          have hgo : ∀ hash : String,
              StFrame st (cascadeDeps ctx spec byMod rest
                { st with modules := (setModuleReg st.modules
                    (replaceDepHash st.disk mod loc hash).1) }
                (some hash)
                (fsync || (replaceDepHash st.disk mod loc hash).2)).1 := by
            intro hash
            obtain ⟨hmem, hspec⟩ := getModuleReg_mem hreg
            obtain ⟨buf, hbuf⟩ := Option.isSome_iff_exists.mp (hb mod hmem)
            have hdep : dep ∈ mod.deps := hd dep (List.mem_cons_self _ _) mod hreg
            have hmf : ModFrame mod (replaceDepHash st.disk mod loc hash).1 :=
              replaceDepHash_frame st.disk loc hash hbuf ⟨dep, hdep, hloc⟩
            have hstep : StFrame st { st with modules := (setModuleReg st.modules
                (replaceDepHash st.disk mod loc hash).1) } :=
              ⟨setModuleReg_frame hn hreg hmf, rfl, rfl⟩
            refine StFrame.st_trans hstep (ihd _ (some hash) _ (hstep.nodup hn)
              (hstep.allbuf hb) ?_)
            intro d hdm m hm
            have hany : st.modules.any (fun e =>
                e.specifier = (replaceDepHash st.disk mod loc hash).1.specifier) = true := by
              rw [List.any_eq_true]
              exact ⟨mod, hmem, decide_eq_true hmf.1.symm⟩
            have hregnew : getModuleReg
                (setModuleReg st.modules (replaceDepHash st.disk mod loc hash).1) spec =
                some (replaceDepHash st.disk mod loc hash).1 := by
              unfold setModuleReg
              rw [if_pos hany]
              unfold getModuleReg
              rw [show spec = (replaceDepHash st.disk mod loc hash).1.specifier from
                (hmf.1.trans hspec).symm]
              exact find?_spec_map_update st.modules _ hany
            have hmm : some (replaceDepHash st.disk mod loc hash).1 = some m := by
              rw [← hregnew]
              exact hm
            cases Option.some.inj hmm
            rw [hmf.2.2.1]
            exact hd d (List.mem_cons_of_mem _ hdm) mod hreg
          cases memo with
          | some h =>
            dsimp only
            rcases hR : replaceDepHash st.disk mod loc h with ⟨mod₁, ch⟩
            have hg := hgo h
            rw [hR] at hg
            exact hg
          | none =>
            dsimp only
            rcases hR : replaceDepHash st.disk mod loc
              (computeModuleHash ctx st byMod) with ⟨mod₁, ch⟩
            have hg := hgo (computeModuleHash ctx st byMod)
            rw [hR] at hg
            exact hg
      · rw [if_neg hbspec]
        exact ihd st memo fsync hn hb (fun d hdm => hd d (List.mem_cons_of_mem _ hdm))

theorem cascadeScan_frame (ctx : Ctx)
    (rec : AlephState → Module → List String → CascadeOut)
    (hrec : ∀ (st : AlephState) (byMod : Module) (tracing : List String),
      (st.modules.map (fun m => m.specifier)).Nodup →
      (∀ m ∈ st.modules, m.jsBuffer.isSome = true) →
      StFrame st (rec st byMod tracing).st) :
    ∀ (specs : List String) (st : AlephState) (byMod : Module)
      (memo : Option String) (patched processed : List String) (ok : Bool),
      (st.modules.map (fun m => m.specifier)).Nodup →
      (∀ m ∈ st.modules, m.jsBuffer.isSome = true) →
      StFrame st
        (cascadeScan ctx rec specs st byMod memo patched processed ok).st := by
  intro specs
  induction specs with
  | nil =>
    intro st byMod memo patched processed ok _ _
    exact StFrame.rfl_st st
  | cons spec rest ihs =>
    intro st byMod memo patched processed ok hn hb
    unfold cascadeScan
    cases hreg : getModuleReg st.modules spec with
    | none =>
      exact ihs st byMod memo patched processed ok hn hb
    | some mod =>
      dsimp only
      by_cases hdeps : mod.deps = []
      · rw [if_pos hdeps]
        exact ihs st byMod memo patched processed ok hn hb
      · rw [if_neg hdeps]
        rcases hC : cascadeDeps ctx spec byMod mod.deps st memo false
          with ⟨st₁, memo₁, fsync⟩
        have h1 : StFrame st st₁ := by
          have h := cascadeDeps_frame ctx spec byMod mod.deps st memo false hn hb
            (fun d hdm m hm => by
              rw [hreg] at hm
              cases Option.some.inj hm
              exact hdm)
          rw [hC] at h
          exact h
        have hn₁ := h1.nodup hn
        have hb₁ := h1.allbuf hb
        by_cases hf : fsync = true
        · rw [if_pos hf]
          cases hreg₁ : getModuleReg st₁.modules spec with
          | some mod₁ =>
            dsimp only
            have h2 : StFrame st₁ (rec st₁ mod₁ []).st := hrec st₁ mod₁ [] hn₁ hb₁
            cases hreg₂ : getModuleReg (rec st₁ mod₁ []).st.modules spec with
            | some mod₂ =>
              dsimp only
              have h3 : StFrame (rec st₁ mod₁ []).st
                  (cacheModule (rec st₁ mod₁ []).st mod₂) := by
                refine ⟨?_, cacheModule_transformLog _ _, cacheModule_appModule _ _⟩
                rw [cacheModule_modules]
                exact List.forall₂_same.mpr (fun m _ => ModFrame.mod_same m)
              have hall := StFrame.st_trans h1 (StFrame.st_trans h2 h3)
              exact StFrame.st_trans hall
                (ihs _ byMod memo₁ _ _ _ (hall.nodup hn) (hall.allbuf hb))
            | none =>
              dsimp only
              have hall := StFrame.st_trans h1 h2
              exact StFrame.st_trans hall
                (ihs _ byMod memo₁ _ _ _ (hall.nodup hn) (hall.allbuf hb))
          | none =>
            dsimp only
            exact StFrame.st_trans h1 (ihs _ byMod memo₁ _ _ _ hn₁ hb₁)
        · rw [if_neg hf]
          exact StFrame.st_trans h1 (ihs _ byMod memo₁ _ _ _ hn₁ hb₁)

theorem applyCompilationSideEffect_frame (ctx : Ctx) :
    ∀ (fuel : Nat) (st : AlephState) (byMod : Module) (tracing : List String),
      (st.modules.map (fun m => m.specifier)).Nodup →
      (∀ m ∈ st.modules, m.jsBuffer.isSome = true) →
      StFrame st (applyCompilationSideEffect ctx fuel st byMod tracing).st := by
  intro fuel
  induction fuel with
  | zero =>
    intro st byMod tracing _ _
    exact StFrame.rfl_st st
  | succ f ih =>
    intro st byMod tracing hn hb
    rw [applyCompilationSideEffect_succ]
    unfold applyCompilationSideEffectBody
    by_cases htr : byMod.specifier ∈ tracing
    · rw [if_pos htr]
      exact StFrame.rfl_st st
    · rw [if_neg htr]
      exact cascadeScan_frame ctx (applyCompilationSideEffect ctx f)
        (fun st' bm tr hn' hb' => ih st' bm tr hn' hb')
        (st.modules.map (fun m => m.specifier)) st byMod none []
        [byMod.specifier] true hn hb

/-- C1: during cascade propagation a patched dependent module is never
re-transformed.  Over a registry with unique specifiers whose modules all
hold their compiled buffers in memory (the state a compilation pass
produces), `#applyCompilationSideEffect` leaves the transform log
untouched — the transform collaborator is never invoked — and reshapes the
registry only pointwise per `ModFrame`: every module keeps its specifier,
`sourceHash`, `deps` list, `jsFile`, flags and source; its compiled buffer
either survives unchanged or keeps its length with every byte outside the
recorded 6-byte `hashLoc` windows intact, the cached `csrCode` being
invalidated exactly on the patched buffers. -/
theorem cascade_patch_frame (ctx : Ctx) (fuel : Nat) (st : AlephState)
    (byMod : Module) (tracing : List String)
    (hn : (st.modules.map (fun m => m.specifier)).Nodup)
    (hb : ∀ m ∈ st.modules, m.jsBuffer.isSome = true) :
    List.Forall₂ ModFrame st.modules
      (applyCompilationSideEffect ctx fuel st byMod tracing).st.modules ∧
    (applyCompilationSideEffect ctx fuel st byMod tracing).st.transformLog =
      st.transformLog :=
  ⟨(applyCompilationSideEffect_frame ctx fuel st byMod tracing hn hb).1,
    (applyCompilationSideEffect_frame ctx fuel st byMod tracing hn hb).2.1⟩

/-! ## Cascade termination lemmas -/

theorem filter_length_le_of_imp {α} {l : List α} {p q : α → Bool}
    (hmono : ∀ a ∈ l, q a = true → p a = true) :
    (l.filter q).length ≤ (l.filter p).length := by
  induction l with
  | nil => exact Nat.le_refl 0
  | cons a t ih =>
    have iht := ih (fun x hx => hmono x (List.mem_cons_of_mem a hx))
    rw [List.filter_cons, List.filter_cons]
    cases hq : q a with
    | true =>
      rw [hmono a (List.mem_cons_self a t) hq]
      simpa using Nat.succ_le_succ iht
    | false =>
      cases hp : p a with
      | true => simpa using Nat.le_succ_of_le iht
      | false => simpa using iht

theorem filter_length_lt_of_imp {α} {l : List α} {p q : α → Bool}
    (hmono : ∀ a ∈ l, q a = true → p a = true) {x : α} (hx : x ∈ l)
    (hpx : p x = true) (hqx : q x = false) :
    (l.filter q).length < (l.filter p).length := by
  induction l with
  | nil => cases hx
  | cons a t ih =>
    have hmt : ∀ y ∈ t, q y = true → p y = true :=
      fun y hy => hmono y (List.mem_cons_of_mem a hy)
    rw [List.filter_cons, List.filter_cons]
    rcases List.mem_cons.mp hx with rfl | hxt
    · rw [hqx, hpx]
      simpa using Nat.lt_succ_of_le (filter_length_le_of_imp hmt)
    · cases hq : q a with
      | true =>
        rw [hmono a (List.mem_cons_self a t) hq]
        simpa using Nat.succ_lt_succ (ih hmt hxt)
      | false =>
        cases hp : p a with
        | true => simpa using Nat.lt_succ_of_lt (ih hmt hxt)
        | false => simpa using ih hmt hxt

theorem sliceList_get? (l : List Nat) (a b i : Nat) :
    (sliceList l a b).get? i = if i < b - a then l.get? (a + i) else none := by
  unfold sliceList
  by_cases hi : i < b - a
  · rw [if_pos hi, List.get?_take hi, List.get?_drop]
  · rw [if_neg hi]
    rw [List.get?_eq_none]
    exact le_trans (List.length_take_le _ _) (Nat.le_of_not_lt hi)

theorem copyBytes_get?_inside (src dst : List Nat) (off i : Nat)
    (hi : i < src.length) (hfit : off + src.length ≤ dst.length) :
    (copyBytes src dst off).get? (off + i) = src.get? i := by
  have hoff : off ≤ dst.length := by omega
  have hsrc : src.length ≤ dst.length - off := by omega
  unfold copyBytes
  rw [List.append_assoc,
    List.get?_append_right
      (by rw [List.length_take]; exact le_trans (min_le_left _ _) (by omega)),
    List.length_take, Nat.min_eq_left hoff, Nat.add_sub_cancel_left,
    List.get?_append (by rw [List.length_take]; rw [Nat.min_eq_right hsrc]; exact hi),
    List.get?_take (by omega)]

theorem sliceList_copyBytes_self (src dst : List Nat) (off : Nat)
    (hlen : src.length = 6) (hfit : off + 6 ≤ dst.length) :
    sliceList (copyBytes src dst off) off (off + 6) = src := by
  apply List.ext
  intro i
  rw [sliceList_get?, Nat.add_sub_cancel_left]
  by_cases hi : i < 6
  · rw [if_pos hi]
    rw [copyBytes_get?_inside src dst off i (by omega) (by omega)]
  · rw [if_neg hi]
    rw [eq_comm, List.get?_eq_none]
    omega

theorem sliceList_copyBytes_disjoint (src dst : List Nat) (off l : Nat)
    (hlen : src.length = 6) (hdisj : l + 6 ≤ off ∨ off + 6 ≤ l) :
    sliceList (copyBytes src dst off) l (l + 6) = sliceList dst l (l + 6) := by
  apply List.ext
  intro i
  rw [sliceList_get?, sliceList_get?, Nat.add_sub_cancel_left]
  by_cases hi : i < 6
  · rw [if_pos hi, if_pos hi]
    exact copyBytes_get?_outside src dst off (l + i) (by omega)
  · rw [if_neg hi, if_neg hi]

theorem encodeStr_take6_length_eq {hash : String} (h : 6 ≤ hash.length) :
    (encodeStr (hash.take 6)).length = 6 := by
  unfold encodeStr
  rw [List.length_map, String.data_take, List.length_take]
  have h2 : 6 ≤ hash.data.length := h
  omega

theorem replaceDepHash_eq_of_buf {m : Module} {buf : List Nat} (disk : Disk)
    (loc : Nat) (hash : String) (hbuf : m.jsBuffer = some buf) :
    replaceDepHash disk m loc hash =
      if encodeStr (hash.take 6) ≠ sliceList buf loc (loc + 6) then
        ({ m with jsBuffer := some (copyBytes (encodeStr (hash.take 6)) buf loc), csrCode := false }, true)
      else (m, false) := by
  unfold replaceDepHash getModuleJS
  rw [hbuf]

theorem getModuleReg_rel {l l' : List Module} (h : List.Forall₂ ModFrame l l')
    (s : String) :
    (getModuleReg l s = none ∧ getModuleReg l' s = none) ∨
    (∃ m m', getModuleReg l s = some m ∧ getModuleReg l' s = some m' ∧
      ModFrame m m') := by
  induction h with
  | nil => exact Or.inl ⟨rfl, rfl⟩
  | cons hab htail ih =>
    rename_i a b l₁ l₂
    unfold getModuleReg
    rw [List.find?_cons, List.find?_cons]
    by_cases hsp : a.specifier = s
    · have hsp' : b.specifier = s := hab.1.trans hsp
      simp only [hsp, hsp', decide_True]
      exact Or.inr ⟨a, b, rfl, rfl, hab⟩
    · have hsp' : ¬ b.specifier = s := fun hcon => hsp (hab.1 ▸ hcon)
      simp only [hsp, hsp', decide_False]
      exact ih

theorem computeModuleHash_congr_mod (ctx : Ctx) (st : AlephState) {m₁ m₂ : Module}
    (hs : m₂.sourceHash = m₁.sourceHash) (hspec : m₂.specifier = m₁.specifier) :
    computeModuleHash ctx st m₂ = computeModuleHash ctx st m₁ := by
  unfold computeModuleHash
  rw [hs, hspec]

theorem computeModuleHash_stable (ctx : Ctx) {st st' : AlephState}
    (hfr : List.Forall₂ ModFrame st.modules st'.modules)
    (happ : st'.appModule = st.appModule) (m : Module) :
    computeModuleHash ctx st' m = computeModuleHash ctx st m := by
  have hlen : st'.modules.length = st.modules.length :=
    (List.Forall₂.length_eq hfr).symm
  have hrel : ∀ s, (getModule st s = none ∧ getModule st' s = none) ∨
      (∃ x x', getModule st s = some x ∧ getModule st' s = some x' ∧
        ModFrame x x') := by
    intro s
    unfold getModule
    by_cases hs : s = "app"
    · rw [if_pos hs, if_pos hs, happ]
      cases st.appModule with
      | none => exact Or.inl ⟨rfl, rfl⟩
      | some a => exact getModuleReg_rel hfr a
    · rw [if_neg hs, if_neg hs]
      exact getModuleReg_rel hfr s
  have hdfs : ∀ f s tr, lookupDepsList st' f s tr = lookupDepsList st f s tr := by
    intro f
    induction f with
    | zero =>
      intro s tr
      rfl
    | succ f ih =>
      intro s tr
      unfold lookupDepsList
      rcases hrel s with ⟨h1, h2⟩ | ⟨x, x', h1, h2, hmf⟩
      · rw [h1, h2]
      · rw [h1, h2]
        dsimp only
        by_cases htr : s ∈ tr
        · rw [if_pos htr, if_pos htr]
        · rw [if_neg htr, if_neg htr]
          rw [hmf.2.2.1]
          have hfold : ∀ (ds : List DependencyDescriptor)
              (acc : List DependencyDescriptor × List String),
              ds.foldl (fun acc dep =>
                let (out, tr2) := lookupDepsList st' f dep.specifier acc.2
                (acc.1 ++ out, tr2)) acc =
              ds.foldl (fun acc dep =>
                let (out, tr2) := lookupDepsList st f dep.specifier acc.2
                (acc.1 ++ out, tr2)) acc := by
            intro ds
            induction ds with
            | nil =>
              intro acc
              rfl
            | cons dh dt ihd =>
              intro acc
              rw [List.foldl_cons, List.foldl_cons]
              dsimp only
              rw [ih dh.specifier acc.2]
              exact ihd _
          exact hfold x.deps _
  have hmapeq : ∀ dep : DependencyDescriptor,
      (getModule st' dep.specifier).map (fun dm => dm.sourceHash) =
      (getModule st dep.specifier).map (fun dm => dm.sourceHash) := by
    intro dep
    rcases hrel dep.specifier with ⟨h1, h2⟩ | ⟨x, x', h1, h2, hmf⟩
    · rw [h1, h2]
    · rw [h1, h2, Option.map_some', Option.map_some', hmf.2.1]
  unfold computeModuleHash lookupDeps
  rw [hlen, hdfs, show (fun dep : DependencyDescriptor =>
    (getModule st' dep.specifier).map (fun dm => dm.sourceHash)) =
    (fun dep => (getModule st dep.specifier).map (fun dm => dm.sourceHash))
    from funext hmapeq]

theorem windowFits_spec {m : Module} (h : windowFits m = true)
    {d : DependencyDescriptor} (hd : d ∈ m.deps) {loc : Nat}
    (hloc : d.hashLoc = some loc) {buf : List Nat}
    (hbuf : m.jsBuffer = some buf) : loc + 6 ≤ buf.length := by
  unfold windowFits at h
  rw [List.all_eq_true] at h
  have h2 := h d hd
  rw [hloc, hbuf] at h2
  exact of_decide_eq_true h2

theorem windowFits_intro {m : Module} {buf : List Nat} (hb : m.jsBuffer = some buf)
    (h : ∀ d ∈ m.deps, ∀ loc, d.hashLoc = some loc → loc + 6 ≤ buf.length) :
    windowFits m = true := by
  unfold windowFits
  rw [List.all_eq_true]
  intro d hd
  cases hdl : d.hashLoc with
  | none =>
    rw [hb]
  | some loc =>
    rw [hb]
    exact decide_eq_true (h d hd loc hdl)

theorem windowsSeparated_spec {m : Module} (h : windowsSeparated m = true)
    {d₁ d₂ : DependencyDescriptor} (h₁ : d₁ ∈ m.deps) (h₂ : d₂ ∈ m.deps)
    {l₁ l₂ : Nat} (hl₁ : d₁.hashLoc = some l₁) (hl₂ : d₂.hashLoc = some l₂) :
    l₁ + 6 ≤ l₂ ∨ l₂ + 6 ≤ l₁ ∨ (l₁ = l₂ ∧ d₁.specifier = d₂.specifier) := by
  unfold windowsSeparated at h
  rw [List.all_eq_true] at h
  have h3 := h d₁ h₁
  rw [List.all_eq_true] at h3
  have h4 := h3 d₂ h₂
  rw [hl₁, hl₂] at h4
  simp only [Bool.or_eq_true, Bool.and_eq_true, decide_eq_true_eq] at h4
  rcases h4 with (h5 | h5) | h5
  · exact Or.inl h5
  · exact Or.inr (Or.inl h5)
  · exact Or.inr (Or.inr h5)

theorem windowsSeparated_congr {m m' : Module} (h : m'.deps = m.deps) :
    windowsSeparated m' = windowsSeparated m := by
  unfold windowsSeparated
  rw [h]

theorem siteCleanH_some (H : String → String) {m : Module}
    {d : DependencyDescriptor} {loc : Nat} {buf : List Nat}
    (hloc : d.hashLoc = some loc) (hbuf : m.jsBuffer = some buf) :
    siteCleanH H m d =
      decide (sliceList buf loc (loc + 6) = encodeStr ((H d.specifier).take 6)) := by
  unfold siteCleanH
  rw [hloc, hbuf]

theorem siteCleanH_none (H : String → String) {m : Module}
    {d : DependencyDescriptor} (hloc : d.hashLoc = none) :
    siteCleanH H m d = true := by
  unfold siteCleanH
  rw [hloc]

theorem setModuleReg_self {ms : List Module} {m : Module}
    (hn : (ms.map (fun x => x.specifier)).Nodup)
    (h : getModuleReg ms m.specifier = some m) :
    setModuleReg ms m = ms := by
  obtain ⟨hmem, -⟩ := getModuleReg_mem h
  have hany : ms.any (fun e => e.specifier = m.specifier) = true :=
    List.any_eq_true.mpr ⟨m, hmem, decide_eq_true rfl⟩
  unfold setModuleReg
  rw [if_pos hany]
  have h2 := setModuleRegIfPresent_self hn h
  unfold setModuleRegIfPresent at h2
  exact h2

theorem windowFits_of_frame {m m' : Module} (hmf : ModFrame m m')
    (hbuf : m.jsBuffer.isSome = true) (h : windowFits m = true) :
    windowFits m' = true := by
  obtain ⟨buf, hb⟩ := Option.isSome_iff_exists.mp hbuf
  rcases hmf.2.2.2.2.2.2.2.2 with ⟨hbe, -⟩ | ⟨b1, b2, hb1, hb2, hlen, -, -⟩
  · refine windowFits_intro (hbe.trans hb) ?_
    intro d hd loc hloc
    rw [hmf.2.2.1] at hd
    exact windowFits_spec h hd hloc hb
  · refine windowFits_intro hb2 ?_
    intro d hd loc hloc
    rw [hmf.2.2.1] at hd
    rw [hlen, show b1 = buf from Option.some.inj (hb1.symm.trans hb)]
    exact windowFits_spec h hd hloc hb

theorem cascadeInv_of_frame {ctx : Ctx} {H : String → String} {st st' : AlephState}
    (hfr : StFrame st st') (hinv : CascadeInv ctx H st) : CascadeInv ctx H st' := by
  obtain ⟨hn, hb, hw, hH⟩ := hinv
  refine ⟨hfr.nodup hn, hfr.allbuf hb, ?_, ?_⟩
  · intro m' hm'
    obtain ⟨m, hm, hmf⟩ := forall₂_modframe_mem hfr.1 m' hm'
    obtain ⟨hwf, hws⟩ := hw m hm
    exact ⟨windowFits_of_frame hmf (hb m hm) hwf,
      (windowsSeparated_congr hmf.2.2.1).trans hws⟩
  · intro m' hm'
    obtain ⟨m, hm, hmf⟩ := forall₂_modframe_mem hfr.1 m' hm'
    rw [computeModuleHash_stable ctx hfr.1 hfr.2.2 m',
      computeModuleHash_congr_mod ctx st hmf.2.1 hmf.1, hH m hm, hmf.1]

theorem byModGood_of_frame {st st' : AlephState} {byMod : Module}
    (hfr : StFrame st st') (hg : byModGood st byMod) : byModGood st' byMod := by
  obtain ⟨dm, hdm, hsh⟩ := hg
  rcases getModuleReg_rel hfr.1 byMod.specifier with ⟨h1, -⟩ | ⟨x, x', h1, h2, hmf⟩
  · rw [h1] at hdm
    cases hdm
  · rw [h1] at hdm
    cases Option.some.inj hdm
    exact ⟨x', h2, hmf.2.1.trans hsh⟩

theorem replaceDepHash_count (H : String → String) (disk : Disk) {mod : Module}
    {buf : List Nat} (hbuf : mod.jsBuffer = some buf)
    (hfits : windowFits mod = true) (hsep : windowsSeparated mod = true)
    {dep : DependencyDescriptor} (hdep : dep ∈ mod.deps) {loc : Nat}
    (hloc : dep.hashLoc = some loc) {hash : String}
    (hhash : hash.take 6 = (H dep.specifier).take 6) (h6 : 6 ≤ hash.length) :
    ((replaceDepHash disk mod loc hash).2 = false →
      (replaceDepHash disk mod loc hash).1 = mod) ∧
    ((replaceDepHash disk mod loc hash).2 = true →
      ((replaceDepHash disk mod loc hash).1.deps.filter
          (fun d => !(siteCleanH H (replaceDepHash disk mod loc hash).1 d))).length <
        (mod.deps.filter (fun d => !(siteCleanH H mod d))).length) := by
  have hlen6 : (encodeStr (hash.take 6)).length = 6 := encodeStr_take6_length_eq h6
  have hencH : encodeStr (hash.take 6) = encodeStr ((H dep.specifier).take 6) := by
    rw [hhash]
  have hfit : loc + 6 ≤ buf.length := windowFits_spec hfits hdep hloc hbuf
  rw [replaceDepHash_eq_of_buf disk loc hash hbuf]
  by_cases hne : encodeStr (hash.take 6) ≠ sliceList buf loc (loc + 6)
  · rw [if_pos hne]
    constructor
    · intro hcon
      exact absurd hcon (by simp)
    · intro _
      dsimp only
      refine filter_length_lt_of_imp ?_ hdep ?_ ?_
      · intro d hd hq
        by_contra hp
        rw [Bool.not_eq_true] at hp
        cases hcl : siteCleanH H mod d with
        | false =>
          rw [hcl] at hp
          simp at hp
        | true =>
          cases hdl : d.hashLoc with
          | none =>
            rw [siteCleanH_none H hdl] at hq
            simp at hq
          | some l₂ =>
            have hclean := hcl
            rw [siteCleanH_some H hdl hbuf] at hclean
            rcases windowsSeparated_spec hsep hd hdep hdl hloc with hdisj | hdisj | ⟨hleq, hseq⟩
            · rw [siteCleanH_some H hdl rfl,
                sliceList_copyBytes_disjoint _ _ _ _ hlen6 (Or.inl hdisj), hclean] at hq
              simp at hq
            · rw [siteCleanH_some H hdl rfl,
                sliceList_copyBytes_disjoint _ _ _ _ hlen6 (Or.inr hdisj), hclean] at hq
              simp at hq
            · rw [siteCleanH_some H hdl rfl, hleq,
                sliceList_copyBytes_self _ _ _ hlen6 hfit, hencH, hseq] at hq
              simp at hq
      · rw [Bool.not_eq_true', siteCleanH_some H hloc hbuf, decide_eq_false_iff_not]
        intro hcon
        exact hne (hencH.trans hcon.symm)
      · rw [siteCleanH_some H hloc rfl,
          sliceList_copyBytes_self _ _ _ hlen6 hfit, hencH]
        simp
  · rw [if_neg hne]
    constructor
    · intro _
      rfl
    · intro hcon
      exact absurd hcon (by simp)

theorem dirtyCountH_setModuleReg_lt {H : String → String} {ms : List Module}
    {mod mod' : Module} {spec : String}
    (hn : (ms.map (fun m => m.specifier)).Nodup)
    (hreg : getModuleReg ms spec = some mod)
    (hspec' : mod'.specifier = mod.specifier)
    (hlt : (mod'.deps.filter (fun d => !(siteCleanH H mod' d))).length <
      (mod.deps.filter (fun d => !(siteCleanH H mod d))).length) :
    dirtyCountH H (setModuleReg ms mod') < dirtyCountH H ms := by
  obtain ⟨hmem, hspec⟩ := getModuleReg_mem hreg
  have hany : ms.any (fun e => e.specifier = mod'.specifier) = true :=
    List.any_eq_true.mpr ⟨mod, hmem, decide_eq_true hspec'.symm⟩
  unfold setModuleReg dirtyCountH
  rw [if_pos hany, List.map_map]
  apply List.sum_lt_sum
  · intro e he
    simp only [Function.comp_apply]
    by_cases hesp : e.specifier = mod'.specifier
    · rw [if_pos hesp, eq_of_mem_nodup_spec hn he hmem (hesp.trans hspec')]
      exact Nat.le_of_lt hlt
    · rw [if_neg hesp]
  · refine ⟨mod, hmem, ?_⟩
    simp only [Function.comp_apply]
    rw [if_pos hspec'.symm]
    exact hlt

theorem cascadeDeps_count (ctx : Ctx) (H : String → String) (spec : String)
    (byMod : Module) (hmd5 : ∀ s, 6 ≤ (ctx.md5 s).length) :
    ∀ (deps : List DependencyDescriptor) (st : AlephState) (memo : Option String)
      (fsync : Bool),
      CascadeInv ctx H st →
      byModGood st byMod →
      (∀ d ∈ deps, ∀ m, getModuleReg st.modules spec = some m → d ∈ m.deps) →
      (∀ h, memo = some h → h = H byMod.specifier) →
      dirtyCountH H (cascadeDeps ctx spec byMod deps st memo fsync).1.modules ≤
          dirtyCountH H st.modules ∧
        ((cascadeDeps ctx spec byMod deps st memo fsync).2.2 = true →
          fsync = true ∨
            dirtyCountH H (cascadeDeps ctx spec byMod deps st memo fsync).1.modules <
              dirtyCountH H st.modules) ∧
        (∀ h, (cascadeDeps ctx spec byMod deps st memo fsync).2.1 = some h →
          h = H byMod.specifier) := by
  intro deps
  induction deps with
  | nil =>
    intro st memo fsync _ _ _ hmemo
    exact ⟨Nat.le_refl _, fun h => Or.inl h, hmemo⟩
  | cons dep rest ihd =>
    intro st memo fsync hinv hgood hd hmemo
    unfold cascadeDeps
    cases hloc : dep.hashLoc with
    | none =>
      exact ihd st memo fsync hinv hgood
        (fun d hdm => hd d (List.mem_cons_of_mem _ hdm)) hmemo
    | some loc =>
      dsimp only
      by_cases hbspec : dep.specifier = byMod.specifier
      · rw [if_pos hbspec]
        have hcmh : computeModuleHash ctx st byMod = H byMod.specifier := by
          obtain ⟨dm, hdm, hsh⟩ := hgood
          obtain ⟨hdmmem, hdmspec⟩ := getModuleReg_mem hdm
          rw [computeModuleHash_congr_mod ctx st hsh.symm hdmspec.symm,
            hinv.2.2.2 dm hdmmem, hdmspec]
        cases hreg : getModuleReg st.modules spec with
        | none =>
          dsimp only
          refine ihd st _ fsync hinv hgood
            (fun d hdm => hd d (List.mem_cons_of_mem _ hdm)) ?_
          intro h hh
          rw [← Option.some.inj hh]
          cases memo with
          | some h0 => exact hmemo h0 rfl
          | none => exact hcmh
        | some mod =>
          dsimp only
          obtain ⟨hn, hb, hw, hH⟩ := hinv
          obtain ⟨hmem, hspec⟩ := getModuleReg_mem hreg
          obtain ⟨buf, hbuf⟩ := Option.isSome_iff_exists.mp (hb mod hmem)
          obtain ⟨hwf, hws⟩ := hw mod hmem
          have hdep : dep ∈ mod.deps := hd dep (List.mem_cons_self _ _) mod hreg
          obtain ⟨dm, hdm, hsh⟩ := hgood
          obtain ⟨hdmmem, hdmspec⟩ := getModuleReg_mem hdm
          have hHval : H byMod.specifier = computeModuleHash ctx st dm := by
            rw [← hdmspec, ← hH dm hdmmem]
          have h6H : 6 ≤ (H byMod.specifier).length := by
            rw [hHval]
            unfold computeModuleHash
            exact hmd5 _
          have hgo : ∀ hash : String, hash = H byMod.specifier →
              dirtyCountH H (cascadeDeps ctx spec byMod rest
                { st with modules := (setModuleReg st.modules
                    (replaceDepHash st.disk mod loc hash).1) }
                (some hash)
                (fsync || (replaceDepHash st.disk mod loc hash).2)).1.modules ≤
                  dirtyCountH H st.modules ∧
                ((cascadeDeps ctx spec byMod rest
                  { st with modules := (setModuleReg st.modules
                      (replaceDepHash st.disk mod loc hash).1) }
                  (some hash)
                  (fsync || (replaceDepHash st.disk mod loc hash).2)).2.2 = true →
                  fsync = true ∨
                    dirtyCountH H (cascadeDeps ctx spec byMod rest
                      { st with modules := (setModuleReg st.modules
                          (replaceDepHash st.disk mod loc hash).1) }
                      (some hash)
                      (fsync || (replaceDepHash st.disk mod loc hash).2)).1.modules <
                      dirtyCountH H st.modules) ∧
                (∀ h, (cascadeDeps ctx spec byMod rest
                  { st with modules := (setModuleReg st.modules
                      (replaceDepHash st.disk mod loc hash).1) }
                  (some hash)
                  (fsync || (replaceDepHash st.disk mod loc hash).2)).2.1 = some h →
                  h = H byMod.specifier) := by
            intro hash hhashval
            have hhash6 : hash.take 6 = (H dep.specifier).take 6 := by
              rw [hhashval, hbspec]
            have h6 : 6 ≤ hash.length := by
              rw [hhashval]
              exact h6H
            have hcnt := replaceDepHash_count H st.disk hbuf hwf hws hdep hloc hhash6 h6
            have hmf : ModFrame mod (replaceDepHash st.disk mod loc hash).1 :=
              replaceDepHash_frame st.disk loc hash hbuf ⟨dep, hdep, hloc⟩
            have hstep : StFrame st { st with modules := (setModuleReg st.modules
                (replaceDepHash st.disk mod loc hash).1) } :=
              ⟨setModuleReg_frame hn hreg hmf, rfl, rfl⟩
            have hinv' : CascadeInv ctx H { st with modules := (setModuleReg st.modules
                (replaceDepHash st.disk mod loc hash).1) } :=
              cascadeInv_of_frame hstep ⟨hn, hb, hw, hH⟩
            have hgood' : byModGood { st with modules := (setModuleReg st.modules
                (replaceDepHash st.disk mod loc hash).1) } byMod :=
              byModGood_of_frame hstep ⟨dm, hdm, hsh⟩
            have hdcond : ∀ d ∈ rest, ∀ m,
                getModuleReg ({ st with modules := (setModuleReg st.modules
                  (replaceDepHash st.disk mod loc hash).1) }).modules spec = some m →
                d ∈ m.deps := by
              intro d hdm m hm
              have hany : st.modules.any (fun e =>
                  e.specifier = (replaceDepHash st.disk mod loc hash).1.specifier) = true :=
                List.any_eq_true.mpr ⟨mod, hmem, decide_eq_true hmf.1.symm⟩
              have hregnew : getModuleReg
                  (setModuleReg st.modules (replaceDepHash st.disk mod loc hash).1) spec =
                  some (replaceDepHash st.disk mod loc hash).1 := by
                unfold setModuleReg
                rw [if_pos hany]
                unfold getModuleReg
                rw [show spec = (replaceDepHash st.disk mod loc hash).1.specifier from
                  (hmf.1.trans hspec).symm]
                exact find?_spec_map_update st.modules _ hany
              have hmm : some (replaceDepHash st.disk mod loc hash).1 = some m := by
                rw [← hregnew]
                exact hm
              cases Option.some.inj hmm
              rw [hmf.2.2.1]
              exact hd d (List.mem_cons_of_mem _ hdm) mod hreg
            have hmemo' : ∀ h, some hash = some h → h = H byMod.specifier := by
              intro h hh
              rw [← Option.some.inj hh]
              exact hhashval
            have hih := ihd { st with modules := (setModuleReg st.modules
                (replaceDepHash st.disk mod loc hash).1) } (some hash)
              (fsync || (replaceDepHash st.disk mod loc hash).2)
              hinv' hgood' hdcond hmemo'
            cases hch : (replaceDepHash st.disk mod loc hash).2 with
            | false =>
              rw [hch] at hih
              have hlecnt : dirtyCountH H ({ st with modules := (setModuleReg st.modules
                  (replaceDepHash st.disk mod loc hash).1) }).modules =
                  dirtyCountH H st.modules := by
                dsimp only
                rw [hcnt.1 hch, setModuleReg_self hn (by rw [hspec]; exact hreg)]
              refine ⟨le_trans hih.1 (le_of_eq hlecnt), ?_, hih.2.2⟩
              intro hok
              rcases hih.2.1 hok with hfs | hlt
              · rw [Bool.or_false] at hfs
                exact Or.inl hfs
              · exact Or.inr (lt_of_lt_of_le hlt (le_of_eq hlecnt))
            | true =>
              rw [hch] at hih
              have hltcnt : dirtyCountH H ({ st with modules := (setModuleReg st.modules
                  (replaceDepHash st.disk mod loc hash).1) }).modules <
                  dirtyCountH H st.modules := by
                dsimp only
                exact dirtyCountH_setModuleReg_lt hn hreg hmf.1 (hcnt.2 hch)
              refine ⟨le_of_lt (lt_of_le_of_lt hih.1 hltcnt), ?_, hih.2.2⟩
              intro _
              exact Or.inr (lt_of_le_of_lt hih.1 hltcnt)
          cases memo with
          | some h =>
            dsimp only
            rcases hR : replaceDepHash st.disk mod loc h with ⟨mod₁, ch⟩
            have hg := hgo h (hmemo h rfl)
            rw [hR] at hg
            exact hg
          | none =>
            dsimp only
            have hnoneval : computeModuleHash ctx st byMod = H byMod.specifier := by
              rw [hHval]
              exact computeModuleHash_congr_mod ctx st hsh.symm hdmspec.symm
            rcases hR : replaceDepHash st.disk mod loc
              (computeModuleHash ctx st byMod) with ⟨mod₁, ch⟩
            have hg := hgo (computeModuleHash ctx st byMod) hnoneval
            rw [hR] at hg
            exact hg
      · rw [if_neg hbspec]
        exact ihd st memo fsync ⟨hinv.1, hinv.2.1, hinv.2.2.1, hinv.2.2.2⟩ hgood
          (fun d hdm => hd d (List.mem_cons_of_mem _ hdm)) hmemo

theorem cascadeScan_count (ctx : Ctx) (H : String → String)
    (hmd5 : ∀ s, 6 ≤ (ctx.md5 s).length)
    (rec : AlephState → Module → List String → CascadeOut)
    (hrecframe : ∀ (st : AlephState) (bm : Module) (tr : List String),
      (st.modules.map (fun m => m.specifier)).Nodup →
      (∀ m ∈ st.modules, m.jsBuffer.isSome = true) →
      StFrame st (rec st bm tr).st)
    (f : Nat)
    (hrecok : ∀ (st : AlephState) (bm : Module) (tr : List String),
      CascadeInv ctx H st → byModGood st bm →
      dirtyCountH H (rec st bm tr).st.modules ≤ dirtyCountH H st.modules ∧
        (dirtyCountH H st.modules < f → (rec st bm tr).ok = true)) :
    ∀ (specs : List String) (st : AlephState) (byMod : Module)
      (memo : Option String) (patched processed : List String) (ok : Bool),
      CascadeInv ctx H st → byModGood st byMod →
      (∀ h, memo = some h → h = H byMod.specifier) →
      dirtyCountH H
          (cascadeScan ctx rec specs st byMod memo patched processed ok).st.modules ≤
          dirtyCountH H st.modules ∧
        (dirtyCountH H st.modules ≤ f → ok = true →
          (cascadeScan ctx rec specs st byMod memo patched processed ok).ok = true) := by
  intro specs
  induction specs with
  | nil =>
    intro st byMod memo patched processed ok _ _ _
    exact ⟨Nat.le_refl _, fun _ hok => hok⟩
  | cons spec rest ihs =>
    intro st byMod memo patched processed ok hinv hgood hmemo
    unfold cascadeScan
    cases hreg : getModuleReg st.modules spec with
    | none =>
      exact ihs st byMod memo patched processed ok hinv hgood hmemo
    | some mod =>
      dsimp only
      by_cases hdeps : mod.deps = []
      · rw [if_pos hdeps]
        exact ihs st byMod memo patched processed ok hinv hgood hmemo
      · rw [if_neg hdeps]
        have hdcond : ∀ d ∈ mod.deps, ∀ m,
            getModuleReg st.modules spec = some m → d ∈ m.deps := by
          intro d hdm m hm
          rw [hreg] at hm
          cases Option.some.inj hm
          exact hdm
        have hfr := cascadeDeps_frame ctx spec byMod mod.deps st memo false
          hinv.1 hinv.2.1 hdcond
        have hcd := cascadeDeps_count ctx H spec byMod hmd5 mod.deps st memo false
          hinv hgood hdcond hmemo
        rcases hC : cascadeDeps ctx spec byMod mod.deps st memo false
          with ⟨st₁, memo₁, fsync⟩
        rw [hC] at hfr hcd
        have hinv₁ : CascadeInv ctx H st₁ := cascadeInv_of_frame hfr hinv
        have hgood₁ : byModGood st₁ byMod := byModGood_of_frame hfr hgood
        have hmemo₁ := hcd.2.2
        by_cases hf : fsync = true
        · rw [if_pos hf]
          have hstrict : dirtyCountH H st₁.modules < dirtyCountH H st.modules := by
            rcases hcd.2.1 hf with hcon | hlt
            · cases hcon
            · exact hlt
          cases hreg₁ : getModuleReg st₁.modules spec with
          | some mod₁ =>
            dsimp only
            have hgood₂ : byModGood st₁ mod₁ := by
              refine ⟨mod₁, ?_, rfl⟩
              rw [(getModuleReg_mem hreg₁).2]
              exact hreg₁
            have hrec1 := hrecok st₁ mod₁ [] hinv₁ hgood₂
            have hfr2 := hrecframe st₁ mod₁ [] hinv₁.1 hinv₁.2.1
            have hinv₂ : CascadeInv ctx H (rec st₁ mod₁ []).st :=
              cascadeInv_of_frame hfr2 hinv₁
            have hgood₃ : byModGood (rec st₁ mod₁ []).st byMod :=
              byModGood_of_frame hfr2 hgood₁
            cases hreg₂ : getModuleReg (rec st₁ mod₁ []).st.modules spec with
            | some mod₂ =>
              dsimp only
              have hfr3 : StFrame (rec st₁ mod₁ []).st
                  (cacheModule (rec st₁ mod₁ []).st mod₂) := by
                refine ⟨?_, cacheModule_transformLog _ _, cacheModule_appModule _ _⟩
                rw [cacheModule_modules]
                exact List.forall₂_same.mpr (fun m _ => ModFrame.mod_same m)
              have hinv₃ : CascadeInv ctx H (cacheModule (rec st₁ mod₁ []).st mod₂) :=
                cascadeInv_of_frame hfr3 hinv₂
              have hgood₄ : byModGood (cacheModule (rec st₁ mod₁ []).st mod₂) byMod :=
                byModGood_of_frame hfr3 hgood₃
              have hcacheeq : dirtyCountH H
                  (cacheModule (rec st₁ mod₁ []).st mod₂).modules =
                  dirtyCountH H (rec st₁ mod₁ []).st.modules := by
                rw [cacheModule_modules]
              have hihs := ihs (cacheModule (rec st₁ mod₁ []).st mod₂) byMod memo₁
                (patched ++ [spec] ++ (rec st₁ mod₁ []).patched)
                (processed ++ (rec st₁ mod₁ []).processed)
                (ok && (rec st₁ mod₁ []).ok) hinv₃ hgood₄ hmemo₁
              constructor
              · exact le_trans hihs.1 (le_trans (le_of_eq hcacheeq)
                  (le_trans hrec1.1 (le_of_lt hstrict)))
              · intro hle hok
                refine hihs.2 ?_ ?_
                · exact le_trans (le_of_eq hcacheeq) (le_trans hrec1.1
                    (le_of_lt (lt_of_lt_of_le hstrict hle)))
                · rw [hok, hrec1.2 (lt_of_lt_of_le hstrict hle)]
                  rfl
            | none =>
              dsimp only
              have hihs := ihs (rec st₁ mod₁ []).st byMod memo₁
                (patched ++ [spec] ++ (rec st₁ mod₁ []).patched)
                (processed ++ (rec st₁ mod₁ []).processed)
                (ok && (rec st₁ mod₁ []).ok) hinv₂ hgood₃ hmemo₁
              constructor
              · exact le_trans hihs.1 (le_trans hrec1.1 (le_of_lt hstrict))
              · intro hle hok
                refine hihs.2 (le_trans hrec1.1
                  (le_of_lt (lt_of_lt_of_le hstrict hle))) ?_
                rw [hok, hrec1.2 (lt_of_lt_of_le hstrict hle)]
                rfl
          | none =>
            dsimp only
            have hihs := ihs st₁ byMod memo₁ patched processed ok hinv₁ hgood₁ hmemo₁
            exact ⟨le_trans hihs.1 (le_of_lt hstrict),
              fun hle hok => hihs.2 (le_trans (le_of_lt hstrict) hle) hok⟩
        · rw [if_neg hf]
          have hihs := ihs st₁ byMod memo₁ patched processed ok hinv₁ hgood₁ hmemo₁
          exact ⟨le_trans hihs.1 hcd.1,
            fun hle hok => hihs.2 (le_trans hcd.1 hle) hok⟩

theorem applyCompilationSideEffect_terminates (ctx : Ctx) (H : String → String)
    (hmd5 : ∀ s, 6 ≤ (ctx.md5 s).length) :
    ∀ (fuel : Nat) (st : AlephState) (byMod : Module) (tracing : List String),
      CascadeInv ctx H st → byModGood st byMod →
      dirtyCountH H
          (applyCompilationSideEffect ctx fuel st byMod tracing).st.modules ≤
          dirtyCountH H st.modules ∧
        (dirtyCountH H st.modules < fuel →
          (applyCompilationSideEffect ctx fuel st byMod tracing).ok = true) := by
  intro fuel
  induction fuel with
  | zero =>
    intro st byMod tracing _ _
    exact ⟨Nat.le_refl _, fun h => absurd h (Nat.not_lt_zero _)⟩
  | succ f ih =>
    intro st byMod tracing hinv hgood
    rw [applyCompilationSideEffect_succ]
    unfold applyCompilationSideEffectBody
    by_cases htr : byMod.specifier ∈ tracing
    · rw [if_pos htr]
      exact ⟨Nat.le_refl _, fun _ => rfl⟩
    · rw [if_neg htr]
      have hscan := cascadeScan_count ctx H hmd5 (applyCompilationSideEffect ctx f)
        (fun st' bm tr hn hb => applyCompilationSideEffect_frame ctx f st' bm tr hn hb)
        f (fun st' bm tr hinv' hgood' => ih st' bm tr hinv' hgood')
        (st.modules.map (fun m => m.specifier)) st byMod none [] [byMod.specifier]
        true hinv hgood (fun h hh => by cases hh)
      exact ⟨hscan.1, fun hlt => hscan.2 (Nat.le_of_lt_succ hlt) rfl⟩

/-- C2 (amended): the recursive propagation call passes a fresh tracing
set, so the set does not bound how often a module becomes the changed
module (the `[A, B, A]` processed log); the call nevertheless terminates
whenever the registry is sane — unique specifiers, in-memory buffers,
hash-marker windows inside the buffer and pairwise identical-or-disjoint,
aggregate hashes (six bytes or longer) correctly assigned by `H` — and the
changed module matches its registry entry: every recursion follows an
actual patch, a patch strictly decreases the number of sites not yet
holding their dependency's stable aggregate hash, so any fuel beyond that
count completes the call (`ok = true` records that the recursion budget
was not exhausted). -/
theorem cascade_propagation_terminates (ctx : Ctx) (H : String → String)
    (fuel : Nat) (st : AlephState) (byMod : Module) (tracing : List String)
    (hmd5 : ∀ s, 6 ≤ (ctx.md5 s).length)
    (hinv : CascadeInv ctx H st) (hgood : byModGood st byMod)
    (hfuel : dirtyCountH H st.modules < fuel) :
    (applyCompilationSideEffect ctx fuel st byMod tracing).ok = true :=
  (applyCompilationSideEffect_terminates ctx H hmd5 fuel st byMod tracing
    hinv hgood).2 hfuel

/-- Witness for the amended C2 on the dirty two-module cycle: two dirty
sites, fuel three. -/
theorem cascade_propagation_terminates_witness :
    (applyCompilationSideEffect ctxHash 3 stAB modA []).ok = true :=
  cascade_propagation_terminates ctxHash HW 3 stAB modA []
    (fun _ => of_decide_eq_true rfl) (by unfold CascadeInv; decide)
    ⟨modA, by decide, rfl⟩ (by decide)

/-- Witness for C1 on the cyclic two-module registry. -/
theorem cascade_patch_frame_witness :
    List.Forall₂ ModFrame stAB.modules
      (applyCompilationSideEffect ctx0 5 stAB modA []).st.modules ∧
    (applyCompilationSideEffect ctx0 5 stAB modA []).st.transformLog =
      stAB.transformLog :=
  cascade_patch_frame ctx0 5 stAB modA [] (by decide) (by decide)

end Aleph
